import Mathlib

/-!
Shallow embedding of the post-report view queries of
`crates/db_views/src/post_report_view.rs` (the moderation report subsystem).

Database tables are modelled as Lean lists of rows; the diesel query builder
is modelled as an explicit structure (`BoxedQuery`) that accumulates WHERE
predicates, an ORDER BY comparator and LIMIT/OFFSET, and whose `load`
realizes the usual SQL semantics: filter, then sort, then offset, then limit,
then project through the SELECT list.  Inner joins are list `flatMap`s over
matching rows; left joins go through `leftOpts`, which yields the matching
rows (as `some`) or a single `none` when nothing matches, exactly like a SQL
left outer join.
-/

/-- Identifier newtypes of the schema; the queries only ever compare them for
equality, so plain naturals suffice. -/
abbrev PersonId := Nat

abbrev CommunityId := Nat

abbrev PostId := Nat

abbrev PostReportId := Nat

/-- Modelled from the spec (§3 Report): the `post_report` row.  The queries in
the source touch `id`, `creator_id`, `post_id`, `resolved`, `resolver_id` and
`published`; the snapshot text fields are inert payload and are represented by
`reason` alone.  `published` is the creation timestamp. -/
structure PostReport where
  id : PostReportId
  creator_id : PersonId
  post_id : PostId
  reason : String
  resolved : Bool
  resolver_id : Option PersonId
  published : Int
deriving Repr, DecidableEq

/-- The `post` row: the queries use `id`, `creator_id` and `community_id`;
`removed`/`deleted` are the moderation flags (they do not occur in any join
condition of this file's queries). -/
structure Post where
  id : PostId
  creator_id : PersonId
  community_id : CommunityId
  removed : Bool
  deleted : Bool
deriving Repr, DecidableEq

/-- The `community` row; only its `id` occurs in join conditions, `removed` is
the moderation flag. -/
structure Community where
  id : CommunityId
  removed : Bool
deriving Repr, DecidableEq

/-- The `person` row; only its `id` occurs in join conditions, `deleted` is
the account-deletion flag. -/
structure Person where
  id : PersonId
  deleted : Bool
deriving Repr, DecidableEq

/-- The `local_user` row; the queries use `person_id` and `admin`. -/
structure LocalUser where
  person_id : PersonId
  admin : Bool
deriving Repr, DecidableEq

/-- Modelled from the spec (§6 action-edge stores): a `community_actions` row,
the (person, community) action edge.  Nullable action timestamps become
`Option Int`; `follow_pending` feeds the subscribed tri-state. -/
structure CommunityActions where
  person_id : PersonId
  community_id : CommunityId
  followed : Option Int
  follow_pending : Bool
  became_moderator : Option Int
  received_ban : Option Int
deriving Repr, DecidableEq

/-- Modelled from the spec (§6 action-edge stores): a `post_actions` row, the
(person, post) action edge with nullable timestamps and scalars. -/
structure PostActions where
  person_id : PersonId
  post_id : PostId
  saved : Option Int
  read : Option Int
  hidden : Option Int
  like_score : Option Int
  read_comments_amount : Option Int
deriving Repr, DecidableEq

/-- Modelled from the spec (§6 action-edge stores): a `person_actions` row,
the (person, person) action edge. -/
structure PersonActions where
  person_id : PersonId
  target_id : PersonId
  blocked : Option Int
deriving Repr, DecidableEq

/-- The `post_aggregates` row; the queries use `post_id` and `comments`. -/
structure PostAggregates where
  post_id : PostId
  comments : Int
deriving Repr, DecidableEq

/-- The relational store: one list of rows per table used by the queries. -/
structure Db where
  post_report : List PostReport
  post : List Post
  community : List Community
  person : List Person
  local_user : List LocalUser
  community_actions : List CommunityActions
  post_actions : List PostActions
  person_actions : List PersonActions
  post_aggregates : List PostAggregates
deriving Repr, DecidableEq

/-- The subscribed tri-state of the spec (§3). -/
inductive SubscribedType where
  | subscribed
  | pending
  | notSubscribed
deriving Repr, DecidableEq

/-- Modelled from the spec: `CommunityFollower::select_subscribed_type()` is
implemented in `lemmy_db_schema` (not under this repository's sources).  Per
§3 it derives the viewer's tri-state from the left-joined viewer
`community_actions` row: no row or no follow yields not-subscribed, a pending
follow yields pending, otherwise subscribed. -/
def selectSubscribedType (o : Option CommunityActions) : SubscribedType :=
  match o with
  | none => .notSubscribed
  | some ca =>
    match ca.followed with
    | none => .notSubscribed
    | some _ => if ca.follow_pending then .pending else .subscribed

/-- The `LocalUserView` passed to `list`: the viewer's person and local-user
rows (the query uses `user.person.id` and `user.local_user.admin`). -/
structure LocalUserView where
  local_user : LocalUser
  person : Person
deriving Repr, DecidableEq

/-- The denormalized `PostReportView` produced by the SELECT list of
`all_joins` (fields in the order of the `.select((...))` tuple in the
source). -/
structure PostReportView where
  post_report : PostReport
  post : Post
  community : Community
  creator : Person
  post_creator : Person
  creator_banned_from_community : Bool
  creator_is_moderator : Bool
  creator_is_admin : Bool
  subscribed : SubscribedType
  saved : Bool
  read : Bool
  hidden : Bool
  creator_blocked : Bool
  my_vote : Option Int
  unread_comments : Int
  counts : PostAggregates
  resolver : Option Person
deriving Repr, DecidableEq

/-- One row of the join graph built by `all_joins`, before the SELECT
projection: the base report row, the inner-joined post / community / creator
person / post-creator person (`aliases::person1`) / aggregates rows, and the
left-joined optional rows. -/
structure JoinedRow where
  report : PostReport
  post : Post
  community : Community
  creator : Person
  post_creator : Person
  creator_community_actions : Option CommunityActions
  my_community_actions : Option CommunityActions
  creator_local_user : Option LocalUser
  my_post_actions : Option PostActions
  my_person_actions : Option PersonActions
  counts : PostAggregates
  resolver : Option Person
deriving Repr, DecidableEq

/-- Left-outer-join helper: all matches as `some`, or the single row `none`
when there is no match. -/
def leftOpts (l : List α) : List (Option α) :=
  match l with
  | [] => [none]
  | _ => l.map some

/-- The join graph of `all_joins` (lines 45-78 of the source), over an
already-filtered base list of report rows.  The join conditions of the
`actions`/`actions_alias` helpers of `lemmy_db_schema::utils` (not under this
repository's sources) are the (person, target) keyings the spec describes in
§6. -/
def allJoinsRows (base : List PostReport) (db : Db) (my_person_id : PersonId) : List JoinedRow :=
  base.flatMap fun pr =>
  (db.post.filter fun p => p.id == pr.post_id).flatMap fun p =>
  (db.community.filter fun c => c.id == p.community_id).flatMap fun c =>
  (db.person.filter fun pe => pe.id == pr.creator_id).flatMap fun creator =>
  (db.person.filter fun pe => pe.id == p.creator_id).flatMap fun post_creator =>
  (leftOpts (db.community_actions.filter fun ca =>
      ca.person_id == p.creator_id && ca.community_id == p.community_id)).flatMap fun cca =>
  (leftOpts (db.community_actions.filter fun ca =>
      ca.person_id == my_person_id && ca.community_id == p.community_id)).flatMap fun myca =>
  (leftOpts (db.local_user.filter fun lu =>
      lu.person_id == p.creator_id && lu.admin)).flatMap fun clu =>
  (leftOpts (db.post_actions.filter fun pa =>
      pa.person_id == my_person_id && pa.post_id == p.id)).flatMap fun mypa =>
  (leftOpts (db.person_actions.filter fun pna =>
      pna.person_id == my_person_id && pna.target_id == p.creator_id)).flatMap fun mypna =>
  (db.post_aggregates.filter fun ag => ag.post_id == pr.post_id).flatMap fun ag =>
  (leftOpts (db.person.filter fun pe => pr.resolver_id == some pe.id)).map fun resolver =>
  { report := pr, post := p, community := c, creator := creator, post_creator := post_creator,
    creator_community_actions := cca, my_community_actions := myca, creator_local_user := clu,
    my_post_actions := mypa, my_person_actions := mypna, counts := ag, resolver := resolver }

/-- The SELECT list of `all_joins` (lines 79-106 of the source): `is_not_null`
on a left-joined nullable column becomes `Option.bind` + `isSome`, and the
`coalesce(comments - read_comments_amount, comments)` becomes a match on the
flattened optional amount. -/
def selectView (jr : JoinedRow) : PostReportView :=
  { post_report := jr.report
    post := jr.post
    community := jr.community
    creator := jr.creator
    post_creator := jr.post_creator
    creator_banned_from_community := (jr.creator_community_actions.bind CommunityActions.received_ban).isSome
    creator_is_moderator := (jr.creator_community_actions.bind CommunityActions.became_moderator).isSome
    creator_is_admin := jr.creator_local_user.isSome
    subscribed := selectSubscribedType jr.my_community_actions
    saved := (jr.my_post_actions.bind PostActions.saved).isSome
    read := (jr.my_post_actions.bind PostActions.read).isSome
    hidden := (jr.my_post_actions.bind PostActions.hidden).isSome
    creator_blocked := (jr.my_person_actions.bind PersonActions.blocked).isSome
    my_vote := jr.my_post_actions.bind PostActions.like_score
    unread_comments :=
      match jr.my_post_actions.bind PostActions.read_comments_amount with
      | some a => jr.counts.comments - a
      | none => jr.counts.comments
    counts := jr.counts
    resolver := jr.resolver }

/-- A diesel boxed query over the join graph: accumulated WHERE predicates,
an optional ORDER BY comparator, and optional LIMIT/OFFSET.  Mirrors the
"build query, mutate conditionally" pattern of the source. -/
structure BoxedQuery where
  rows : List JoinedRow
  preds : List (JoinedRow → Bool)
  ordering : Option (JoinedRow → JoinedRow → Bool)
  lim : Option Int
  off : Option Int

/-- Appends a WHERE predicate (diesel `.filter`). -/
def BoxedQuery.filter (q : BoxedQuery) (p : JoinedRow → Bool) : BoxedQuery :=
  { q with preds := q.preds ++ [p] }

/-- Sets the ORDER BY comparator (diesel `.order_by`). -/
def BoxedQuery.order_by (q : BoxedQuery) (le : JoinedRow → JoinedRow → Bool) : BoxedQuery :=
  { q with ordering := some le }

/-- Sets the LIMIT (diesel `.limit`). -/
def BoxedQuery.limit (q : BoxedQuery) (n : Int) : BoxedQuery :=
  { q with lim := some n }

/-- Sets the OFFSET (diesel `.offset`). -/
def BoxedQuery.offset (q : BoxedQuery) (n : Int) : BoxedQuery :=
  { q with off := some n }

/-- Insertion step of the ORDER BY sort. -/
def insertLe (le : α → α → Bool) (x : α) : List α → List α
  | [] => [x]
  | y :: ys => if le x y then x :: y :: ys else y :: insertLe le x ys

/-- Insertion sort realizing ORDER BY. -/
def sortByLe (le : α → α → Bool) : List α → List α
  | [] => []
  | x :: xs => insertLe le x (sortByLe le xs)

/-- Executes the query with SQL statement semantics: WHERE predicates first,
then ORDER BY, then OFFSET, then LIMIT, then the SELECT projection.  Note that
predicates participate in row selection before LIMIT/OFFSET no matter when
`.filter` was called on the builder. -/
def BoxedQuery.load (q : BoxedQuery) : List PostReportView :=
  let fs := q.rows.filter fun r => q.preds.all fun p => p r
  let srt := match q.ordering with
    | none => fs
    | some le => sortByLe le fs
  let dropped := match q.off with
    | none => srt
    | some o => srt.drop o.toNat
  let limited := match q.lim with
    | none => dropped
    | some l => dropped.take l.toNat
  limited.map selectView

/-- The `all_joins` closure of the source: turns a base (possibly already
filtered) report query into the boxed join-graph query, parameterized by the
viewer identity. -/
def all_joins (base : List PostReport) (db : Db) (my_person_id : PersonId) : BoxedQuery :=
  { rows := allJoinsRows base db my_person_id, preds := [], ordering := none,
    lim := none, off := none }

/-- Error taxonomy of the query boundary (spec §7; connection failures are not
modelled). -/
inductive DbError where
  | NotFound
  | QueryBuilderError
deriving Repr, DecidableEq

/-- Default page size of the pagination helper. -/
def fetchLimitDefault : Int := 10

/-- Maximum page size of the pagination helper. -/
def fetchLimitMax : Int := 50

/-- Modelled from the spec: `limit_and_offset` lives in
`lemmy_db_schema::utils`, not under this repository's sources.  Per §4.3
step 3 it maps `(page, limit)` to `(limit, offset)` with page 1-based:
invalid/zero page maps to page 1, a missing limit maps to the fixed default,
and an out-of-range limit fails with an error. -/
def limit_and_offset (page : Option Int) (limit : Option Int) :
    Except DbError (Int × Int) :=
  let p : Int := match page with
    | some p => if p < 1 then 1 else p
    | none => 1
  match limit with
  | some l =>
    if l < 1 || fetchLimitMax < l then .error .QueryBuilderError
    else .ok (l, l * (p - 1))
  | none => .ok (fetchLimitDefault, fetchLimitDefault * (p - 1))

/-- ORDER BY `post_report.published ASC` comparator. -/
def publishedAsc (a b : JoinedRow) : Bool :=
  a.report.published ≤ b.report.published

/-- ORDER BY `post_report.published DESC` comparator. -/
def publishedDesc (a b : JoinedRow) : Bool :=
  b.report.published ≤ a.report.published

/-- The point lookup `PostReportView::read` (lines 109-116 and 158-164 of the
source): find the report row by id, run `all_joins`, return the first result
or `NotFound`.  No visibility filtering.  (Named `readReport` because the
`read` field of `PostReportView` occupies the name `PostReportView.read`.) -/
def readReport (db : Db) (report_id : PostReportId) (my_person_id : PersonId) :
    Except DbError PostReportView :=
  match (all_joins (db.post_report.filter fun r => r.id == report_id) db my_person_id).load with
  | [] => .error .NotFound
  | v :: _ => .ok v

/-- The listing options (`PostReportQuery`, lines 207-214 of the source). -/
structure PostReportQuery where
  community_id : Option CommunityId := none
  post_id : Option PostId := none
  page : Option Int := none
  limit : Option Int := none
  unresolved_only : Bool := false
deriving Repr, DecidableEq

/-- The listing operation (`list`, lines 118-149 of the source): community and
post filters, the coupled resolution-filter/ordering branch, pagination, and
— for non-admin viewers, attached after limit/offset exactly as in the
source — the moderator-visibility filter on the left-joined viewer
`community_actions` row. -/
def PostReportQuery.list (options : PostReportQuery) (db : Db) (user : LocalUserView) :
    Except DbError (List PostReportView) :=
  let q := all_joins db.post_report db user.person.id
  let q := match options.community_id with
    | some community_id => q.filter fun jr => jr.post.community_id == community_id
    | none => q
  let q := match options.post_id with
    | some post_id => q.filter fun jr => jr.post.id == post_id
    | none => q
  let q := if options.unresolved_only then
      (q.filter fun jr => jr.report.resolved == false).order_by publishedAsc
    else
      q.order_by publishedDesc
  match limit_and_offset options.page options.limit with
  | .error e => .error e
  | .ok (l, o) =>
    let q := (q.limit l).offset o
    let q := if !user.local_user.admin then
        q.filter fun jr => (jr.my_community_actions.bind CommunityActions.became_moderator).isSome
      else q
    .ok q.load

/-- The unresolved-report counter (`get_report_count`, lines 167-204 of the
source): `post_report` inner-joined with `post`, filtered to unresolved rows
and the optional community, and — for non-admin viewers — inner-joined with
the viewer's moderator `community_actions` rows; the count of the resulting
rows (named `count(post_report.id)` in the source, and `id` is never null). -/
def get_report_count (db : Db) (my_person_id : PersonId) (admin : Bool)
    (community_id : Option CommunityId) : Nat :=
  let rows : List (PostReport × Post) := db.post_report.flatMap fun r =>
    (db.post.filter fun p => p.id == r.post_id).map fun p => (r, p)
  let rows := rows.filter fun rp => rp.1.resolved == false
  let rows : List (PostReport × Post) := match community_id with
    | some cid => rows.filter fun rp => rp.2.community_id == cid
    | none => rows
  if !admin then
    (rows.flatMap fun (rp : PostReport × Post) =>
      (db.community_actions.filter fun (ca : CommunityActions) =>
        ca.community_id == rp.2.community_id && ca.person_id == my_person_id &&
          ca.became_moderator.isSome).map fun ca => (rp, ca)).length
  else
    rows.length

/-- Modelled from the spec: `PostReport::resolve_all_for_object` is
implemented in `lemmy_db_schema` and only called by this repository's test;
per §4.5 it marks every unresolved report on the given item resolved, stamps
the given resolver identity on all of them in one set-based statement, and
returns the affected row count (zero, with no error, when nothing was
unresolved). -/
def resolve_all_for_object (db : Db) (post_id_ : PostId) (resolver_id : PersonId) :
    Db × Nat :=
  let affected :=
    (db.post_report.filter fun r => r.post_id == post_id_ && r.resolved == false).length
  ({ db with post_report := db.post_report.map fun r =>
      if r.post_id == post_id_ && r.resolved == false then
        { r with resolved := true, resolver_id := some resolver_id }
      else r },
   affected)

/-! ## Generic query lemmas -/

/-- What it means for a left-joined optional component to agree with the list
of matching rows: a `some` is one of the matches, a `none` means there was no
match. -/
def optMatchL (o : Option α) (l : List α) : Prop :=
  match o with
  | some a => a ∈ l
  | none => l = []

theorem mem_leftOpts {l : List α} {o : Option α} :
    o ∈ leftOpts l ↔ optMatchL o l := by
  cases o with
  | none =>
    cases l with
    | nil => simp [leftOpts, optMatchL]
    | cons x xs => simp [leftOpts, optMatchL]
  | some a =>
    cases l with
    | nil => simp [leftOpts, optMatchL]
    | cons x xs => simp [leftOpts, optMatchL]

theorem leftOpts_ne_nil (l : List α) : leftOpts l ≠ [] := by
  cases l <;> simp [leftOpts]

theorem optMatchL_head? (l : List α) : optMatchL l.head? l := by
  cases l <;> simp [optMatchL]

theorem perm_insertLe (le : α → α → Bool) (x : α) (l : List α) :
    List.Perm (insertLe le x l) (x :: l) := by
  induction l with
  | nil => simp [insertLe]
  | cons y ys ih =>
    simp only [insertLe]
    split
    · exact List.Perm.refl _
    · exact (List.Perm.cons y ih).trans (List.Perm.swap x y ys)

theorem perm_sortByLe (le : α → α → Bool) (l : List α) :
    List.Perm (sortByLe le l) l := by
  induction l with
  | nil => simp [sortByLe]
  | cons x xs ih => exact (perm_insertLe le x _).trans (List.Perm.cons x ih)

theorem pairwise_insertLe (le : α → α → Bool)
    (htot : ∀ a b, le a b = true ∨ le b a = true)
    (htrans : ∀ a b c, le a b = true → le b c = true → le a c = true)
    (x : α) {l : List α} (h : l.Pairwise fun a b => le a b = true) :
    (insertLe le x l).Pairwise fun a b => le a b = true := by
  induction l with
  | nil => simp [insertLe]
  | cons y ys ih =>
    rcases List.pairwise_cons.mp h with ⟨hy, hys⟩
    simp only [insertLe]
    split
    · rename_i hxy
      refine List.pairwise_cons.mpr ⟨?_, h⟩
      intro z hz
      rcases List.mem_cons.mp hz with rfl | hz'
      · exact hxy
      · exact htrans x y z hxy (hy z hz')
    · rename_i hxy
      have hyx : le y x = true := by
        rcases htot x y with h' | h'
        · exact absurd h' hxy
        · exact h'
      refine List.pairwise_cons.mpr ⟨?_, ih hys⟩
      intro z hz
      rcases List.mem_cons.mp ((perm_insertLe le x ys).mem_iff.mp hz) with rfl | hz'
      · exact hyx
      · exact hy z hz'

theorem pairwise_sortByLe (le : α → α → Bool)
    (htot : ∀ a b, le a b = true ∨ le b a = true)
    (htrans : ∀ a b c, le a b = true → le b c = true → le a c = true)
    (l : List α) :
    (sortByLe le l).Pairwise fun a b => le a b = true := by
  induction l with
  | nil => simp [sortByLe]
  | cons x xs ih => exact pairwise_insertLe le htot htrans x ih

/-- Primary-key discipline of a table: the key function is injective on the
rows (no two rows share a key). -/
def uniqueKeys (l : List α) (key : α → κ) : Prop :=
  (l.map key).Nodup

theorem eq_of_uniqueKeys {l : List α} {key : α → κ} (h : uniqueKeys l key)
    {a b : α} (ha : a ∈ l) (hb : b ∈ l) (hk : key a = key b) : a = b :=
  List.inj_on_of_nodup_map h ha hb hk

theorem uniqueKeys_cons {a : α} {l : List α} {key : α → κ}
    (h : uniqueKeys (a :: l) key) :
    key a ∉ l.map key ∧ uniqueKeys l key := by
  simpa [uniqueKeys] using List.nodup_cons.mp h

/-- Under a primary key that the predicate determines, filtering is the same
as finding the first match. -/
theorem filter_eq_find_toList {l : List α} {p : α → Bool} {key : α → κ}
    (hnd : uniqueKeys l key)
    (hk : ∀ a b, p a = true → p b = true → key a = key b) :
    l.filter p = (l.find? p).toList := by
  induction l with
  | nil => simp
  | cons a as ih =>
    rcases uniqueKeys_cons hnd with ⟨hka, hnd'⟩
    by_cases hpa : p a = true
    · have hnil : as.filter p = [] := by
        apply List.filter_eq_nil_iff.mpr
        intro b hb hpb
        exact hka ((hk b a hpb hpa) ▸ List.mem_map_of_mem key hb)
      simp [List.filter_cons, hpa, List.find?_cons_of_pos _ hpa, hnil]
    · have hpa' : p a = false := by
        cases h' : p a
        · rfl
        · exact absurd h' hpa
      simp [List.filter_cons, hpa', List.find?, ih hnd']

theorem length_filter_le_one {l : List α} {p : α → Bool} {key : α → κ}
    (hnd : uniqueKeys l key)
    (hk : ∀ a b, p a = true → p b = true → key a = key b) :
    (l.filter p).length ≤ 1 := by
  rw [filter_eq_find_toList hnd hk]
  cases l.find? p <;> simp

theorem optMatchL_eq {o₁ o₂ : Option α} {l : List α}
    (hlen : l.length ≤ 1) (h₁ : optMatchL o₁ l) (h₂ : optMatchL o₂ l) :
    o₁ = o₂ := by
  cases o₁ with
  | none =>
    cases o₂ with
    | none => rfl
    | some b => simp only [optMatchL] at h₁ h₂; simp [h₁] at h₂
  | some a =>
    cases o₂ with
    | none => simp only [optMatchL] at h₁ h₂; simp [h₂] at h₁
    | some b =>
      simp only [optMatchL] at h₁ h₂
      cases l with
      | nil => simp at h₁
      | cons x xs =>
        cases xs with
        | nil =>
          simp only [List.mem_singleton] at h₁ h₂
          rw [h₁, h₂]
        | cons y ys => simp at hlen

/-! ## Characterizing membership in the join graph -/

/-- A row is in the join graph iff its inner-joined components are matching
table rows and each left-joined component agrees with the list of matching
rows. -/
theorem mem_allJoinsRows {db : Db} {base : List PostReport} {my : PersonId} {jr : JoinedRow} :
    jr ∈ allJoinsRows base db my ↔
      jr.report ∈ base ∧
      (jr.post ∈ db.post ∧ jr.post.id = jr.report.post_id) ∧
      (jr.community ∈ db.community ∧ jr.community.id = jr.post.community_id) ∧
      (jr.creator ∈ db.person ∧ jr.creator.id = jr.report.creator_id) ∧
      (jr.post_creator ∈ db.person ∧ jr.post_creator.id = jr.post.creator_id) ∧
      optMatchL jr.creator_community_actions (db.community_actions.filter fun ca =>
        ca.person_id == jr.post.creator_id && ca.community_id == jr.post.community_id) ∧
      optMatchL jr.my_community_actions (db.community_actions.filter fun ca =>
        ca.person_id == my && ca.community_id == jr.post.community_id) ∧
      optMatchL jr.creator_local_user (db.local_user.filter fun lu =>
        lu.person_id == jr.post.creator_id && lu.admin) ∧
      optMatchL jr.my_post_actions (db.post_actions.filter fun pa =>
        pa.person_id == my && pa.post_id == jr.post.id) ∧
      optMatchL jr.my_person_actions (db.person_actions.filter fun pna =>
        pna.person_id == my && pna.target_id == jr.post.creator_id) ∧
      (jr.counts ∈ db.post_aggregates ∧ jr.counts.post_id = jr.report.post_id) ∧
      optMatchL jr.resolver (db.person.filter fun pe => jr.report.resolver_id == some pe.id) := by
  constructor
  · intro h
    simp only [allJoinsRows, List.mem_flatMap, List.mem_map] at h
    obtain ⟨pr, hpr, p, hp, c, hc, cr, hcr, pcr, hpcr, cca, hcca, myca, hmyca, clu, hclu,
      mypa, hmypa, mypna, hmypna, ag, hag, res, hres, heq⟩ := h
    subst heq
    rcases List.mem_filter.mp hp with ⟨hpmem, hpid⟩
    rcases List.mem_filter.mp hc with ⟨hcmem, hcid⟩
    rcases List.mem_filter.mp hcr with ⟨hcrmem, hcrid⟩
    rcases List.mem_filter.mp hpcr with ⟨hpcrmem, hpcrid⟩
    rcases List.mem_filter.mp hag with ⟨hagmem, hagid⟩
    refine ⟨hpr, ⟨hpmem, by simpa using hpid⟩, ⟨hcmem, by simpa using hcid⟩,
      ⟨hcrmem, by simpa using hcrid⟩, ⟨hpcrmem, by simpa using hpcrid⟩,
      mem_leftOpts.mp hcca, mem_leftOpts.mp hmyca, mem_leftOpts.mp hclu,
      mem_leftOpts.mp hmypa, mem_leftOpts.mp hmypna,
      ⟨hagmem, by simpa using hagid⟩, mem_leftOpts.mp hres⟩
  · intro h
    obtain ⟨hpr, ⟨hpmem, hpid⟩, ⟨hcmem, hcid⟩, ⟨hcrmem, hcrid⟩, ⟨hpcrmem, hpcrid⟩,
      hcca, hmyca, hclu, hmypa, hmypna, ⟨hagmem, hagid⟩, hres⟩ := h
    simp only [allJoinsRows, List.mem_flatMap, List.mem_map]
    refine ⟨jr.report, hpr, jr.post, List.mem_filter.mpr ⟨hpmem, by simpa using hpid⟩,
      jr.community, List.mem_filter.mpr ⟨hcmem, by simpa using hcid⟩,
      jr.creator, List.mem_filter.mpr ⟨hcrmem, by simpa using hcrid⟩,
      jr.post_creator, List.mem_filter.mpr ⟨hpcrmem, by simpa using hpcrid⟩,
      jr.creator_community_actions, mem_leftOpts.mpr hcca,
      jr.my_community_actions, mem_leftOpts.mpr hmyca,
      jr.creator_local_user, mem_leftOpts.mpr hclu,
      jr.my_post_actions, mem_leftOpts.mpr hmypa,
      jr.my_person_actions, mem_leftOpts.mpr hmypna,
      jr.counts, List.mem_filter.mpr ⟨hagmem, by simpa using hagid⟩,
      jr.resolver, mem_leftOpts.mpr hres, ?_⟩
    rfl

/-! ## Characterizing the listing pipeline -/

/-- The conjunction of all WHERE predicates that `list` accumulates: the
optional community and post filters, the resolution filter of the
unresolved-only branch, and — for non-admin viewers — the moderator
visibility filter. -/
def listPred (options : PostReportQuery) (user : LocalUserView) (jr : JoinedRow) : Bool :=
  (match options.community_id with
    | some community_id => jr.post.community_id == community_id
    | none => true) &&
  (match options.post_id with
    | some post_id => jr.post.id == post_id
    | none => true) &&
  (!options.unresolved_only || jr.report.resolved == false) &&
  (user.local_user.admin || (jr.my_community_actions.bind CommunityActions.became_moderator).isSome)

/-- The ORDER BY comparator `list` selects: ascending for the unresolved-only
queue, descending otherwise. -/
def listCmp (options : PostReportQuery) : JoinedRow → JoinedRow → Bool :=
  if options.unresolved_only then publishedAsc else publishedDesc

/-- The executed listing, in closed form: WHERE, then ORDER BY, then
OFFSET/LIMIT, then SELECT.  The moderator visibility filter is part of the
WHERE even though the builder attaches it after limit and offset. -/
theorem list_eq (options : PostReportQuery) (db : Db) (user : LocalUserView)
    {l o : Int} (hlo : limit_and_offset options.page options.limit = .ok (l, o)) :
    options.list db user = .ok
      ((((sortByLe (listCmp options)
          ((allJoinsRows db.post_report db user.person.id).filter
            (listPred options user))).drop o.toNat).take l.toNat).map selectView) := by
  unfold PostReportQuery.list
  rw [hlo]
  rcases hcid : options.community_id with _ | cid <;>
    rcases hpid : options.post_id with _ | pid <;>
    cases hu : options.unresolved_only <;>
    cases hadmin : user.local_user.admin <;>
    · simp only [all_joins, BoxedQuery.filter, BoxedQuery.order_by, BoxedQuery.limit,
        BoxedQuery.offset, BoxedQuery.load, listCmp, hu, hadmin, hcid, hpid]
      simp only [Bool.not_false, Bool.not_true, if_true, if_false, Bool.false_eq_true,
        Bool.true_eq_false, ite_true, ite_false, List.nil_append, List.cons_append,
        List.append_nil, List.all_cons, List.all_nil, Bool.and_true]
      refine congrArg Except.ok ?_
      refine congrArg (List.map selectView) ?_
      refine congrArg (List.take l.toNat) ?_
      refine congrArg (List.drop o.toNat) ?_
      refine congrArg (sortByLe _) ?_
      exact List.filter_congr fun jr _ => by
        simp [listPred, hcid, hpid, hu, hadmin, Bool.and_assoc]

theorem list_ok_pipeline {options : PostReportQuery} {db : Db} {user : LocalUserView}
    {views : List PostReportView} (h : options.list db user = .ok views) :
    ∃ l o : Int, limit_and_offset options.page options.limit = .ok (l, o) ∧
      views = (((sortByLe (listCmp options)
          ((allJoinsRows db.post_report db user.person.id).filter
            (listPred options user))).drop o.toNat).take l.toNat).map selectView := by
  cases hlo : limit_and_offset options.page options.limit with
  | error e =>
    exfalso
    unfold PostReportQuery.list at h
    rw [hlo] at h
    simp at h
  | ok lo =>
    obtain ⟨l, o⟩ := lo
    refine ⟨l, o, rfl, ?_⟩
    have hx := list_eq options db user hlo
    rw [h] at hx
    simpa using hx

theorem mem_of_list_ok {options : PostReportQuery} {db : Db} {user : LocalUserView}
    {views : List PostReportView} (h : options.list db user = .ok views)
    {v : PostReportView} (hv : v ∈ views) :
    ∃ jr ∈ allJoinsRows db.post_report db user.person.id,
      listPred options user jr = true ∧ v = selectView jr := by
  obtain ⟨l, o, _, hviews⟩ := list_ok_pipeline h
  subst hviews
  rcases List.mem_map.mp hv with ⟨jr, hjr, rfl⟩
  have h1 := (List.take_sublist _ _).subset hjr
  have h2 := (List.drop_sublist _ _).subset h1
  have h3 := (perm_sortByLe _ _).mem_iff.mp h2
  rcases List.mem_filter.mp h3 with ⟨h4, h5⟩
  exact ⟨jr, h4, h5, rfl⟩

theorem listPred_resolved {options : PostReportQuery} {user : LocalUserView} {jr : JoinedRow}
    (h : listPred options user jr = true) (hu : options.unresolved_only = true) :
    jr.report.resolved = false := by
  simp only [listPred, hu, Bool.and_eq_true, Bool.or_eq_true, Bool.not_true] at h
  rcases h with ⟨⟨⟨-, -⟩, h⟩, -⟩
  rcases h with h | h
  · exact absurd h (by simp)
  · simpa using h

theorem listPred_mod {options : PostReportQuery} {user : LocalUserView} {jr : JoinedRow}
    (h : listPred options user jr = true) (hadmin : user.local_user.admin = false) :
    (jr.my_community_actions.bind CommunityActions.became_moderator).isSome = true := by
  simp only [listPred, hadmin, Bool.and_eq_true, Bool.or_eq_true] at h
  rcases h with ⟨-, h⟩
  rcases h with h | h
  · exact absurd h (by simp)
  · exact h

/-- With no predicates, ordering, limit or offset, a loaded query is just the
projected join graph. -/
theorem load_all_joins (base : List PostReport) (db : Db) (my : PersonId) :
    (all_joins base db my).load = (allJoinsRows base db my).map selectView := by
  simp [all_joins, BoxedQuery.load]

theorem readReport_ok_elim {db : Db} {rid : PostReportId} {my : PersonId} {v : PostReportView}
    (h : readReport db rid my = .ok v) :
    ∃ jr ∈ allJoinsRows (db.post_report.filter fun r => r.id == rid) db my,
      v = selectView jr := by
  unfold readReport at h
  rw [load_all_joins] at h
  cases hrows : allJoinsRows (db.post_report.filter fun r => r.id == rid) db my with
  | nil => rw [hrows] at h; simp at h
  | cons jr rest =>
    rw [hrows] at h
    simp only [List.map_cons] at h
    exact ⟨jr, List.mem_cons_self jr rest, by cases h; rfl⟩

theorem readReport_ok_of_ne_nil {db : Db} {rid : PostReportId} {my : PersonId}
    (h : allJoinsRows (db.post_report.filter fun r => r.id == rid) db my ≠ []) :
    ∃ v, readReport db rid my = .ok v := by
  unfold readReport
  rw [load_all_joins]
  cases hrows : allJoinsRows (db.post_report.filter fun r => r.id == rid) db my with
  | nil => exact absurd hrows h
  | cons jr rest => exact ⟨selectView jr, by simp⟩

/-- Nonemptiness of the join graph only depends on the inner-joined tables:
the left joins never drop a row. -/
theorem allJoinsRows_ne_nil_iff {base : List PostReport} {db : Db} {my : PersonId} :
    allJoinsRows base db my ≠ [] ↔
      ∃ pr ∈ base, ∃ p ∈ db.post, p.id = pr.post_id ∧
        (∃ c ∈ db.community, c.id = p.community_id) ∧
        (∃ cr ∈ db.person, cr.id = pr.creator_id) ∧
        (∃ pcr ∈ db.person, pcr.id = p.creator_id) ∧
        (∃ ag ∈ db.post_aggregates, ag.post_id = pr.post_id) := by
  constructor
  · intro h
    obtain ⟨jr, hjr⟩ := List.exists_mem_of_ne_nil _ h
    obtain ⟨h1, ⟨h2a, h2b⟩, ⟨h3a, h3b⟩, ⟨h4a, h4b⟩, ⟨h5a, h5b⟩, -, -, -, -, -,
      ⟨h6a, h6b⟩, -⟩ := mem_allJoinsRows.mp hjr
    exact ⟨jr.report, h1, jr.post, h2a, h2b, ⟨jr.community, h3a, h3b⟩,
      ⟨jr.creator, h4a, h4b⟩, ⟨jr.post_creator, h5a, h5b⟩, ⟨jr.counts, h6a, h6b⟩⟩
  · rintro ⟨pr, hpr, p, hp, hpid, ⟨c, hc, hcid⟩, ⟨cr, hcr, hcrid⟩,
      ⟨pcr, hpcr, hpcrid⟩, ⟨ag, hag, hagid⟩⟩
    apply List.ne_nil_of_mem (a :=
      { report := pr, post := p, community := c, creator := cr, post_creator := pcr,
        creator_community_actions := (db.community_actions.filter fun ca =>
          ca.person_id == p.creator_id && ca.community_id == p.community_id).head?,
        my_community_actions := (db.community_actions.filter fun ca =>
          ca.person_id == my && ca.community_id == p.community_id).head?,
        creator_local_user := (db.local_user.filter fun lu =>
          lu.person_id == p.creator_id && lu.admin).head?,
        my_post_actions := (db.post_actions.filter fun pa =>
          pa.person_id == my && pa.post_id == p.id).head?,
        my_person_actions := (db.person_actions.filter fun pna =>
          pna.person_id == my && pna.target_id == p.creator_id).head?,
        counts := ag,
        resolver := (db.person.filter fun pe => pr.resolver_id == some pe.id).head? })
    refine mem_allJoinsRows.mpr ⟨hpr, ⟨hp, hpid⟩, ⟨hc, hcid⟩, ⟨hcr, hcrid⟩, ⟨hpcr, hpcrid⟩,
      ?_, ?_, ?_, ?_, ?_, ⟨hag, hagid⟩, ?_⟩ <;>
    · exact optMatchL_head? _

theorem publishedAsc_total (a b : JoinedRow) :
    publishedAsc a b = true ∨ publishedAsc b a = true := by
  simp only [publishedAsc, decide_eq_true_eq]
  omega

theorem publishedAsc_trans (a b c : JoinedRow) (h1 : publishedAsc a b = true)
    (h2 : publishedAsc b c = true) : publishedAsc a c = true := by
  simp only [publishedAsc, decide_eq_true_eq] at h1 h2 ⊢
  omega

theorem publishedDesc_total (a b : JoinedRow) :
    publishedDesc a b = true ∨ publishedDesc b a = true := by
  simp only [publishedDesc, decide_eq_true_eq]
  omega

theorem publishedDesc_trans (a b c : JoinedRow) (h1 : publishedDesc a b = true)
    (h2 : publishedDesc b c = true) : publishedDesc a c = true := by
  simp only [publishedDesc, decide_eq_true_eq] at h1 h2 ⊢
  omega

/-- C2: the listing couples the resolution filter to the ordering: with
`unresolved_only` every returned report is unresolved and the page is ordered
by creation time ascending (oldest first); without it there is no resolution
filter and the page is ordered by creation time descending (newest first). -/
theorem c2_resolution_ordering (options : PostReportQuery) (db : Db) (user : LocalUserView)
    (views : List PostReportView) (h : options.list db user = .ok views) :
    (options.unresolved_only = true →
      (∀ v ∈ views, v.post_report.resolved = false) ∧
      views.Pairwise fun a b => a.post_report.published ≤ b.post_report.published) ∧
    (options.unresolved_only = false →
      views.Pairwise fun a b => b.post_report.published ≤ a.post_report.published) := by
  obtain ⟨l, o, hlo, hviews⟩ := list_ok_pipeline h
  constructor
  · intro hu
    constructor
    · intro v hv
      obtain ⟨jr, _, hpred, rfl⟩ := mem_of_list_ok h hv
      exact listPred_resolved hpred hu
    · have hsort : (sortByLe (listCmp options)
          ((allJoinsRows db.post_report db user.person.id).filter
            (listPred options user))).Pairwise fun a b => listCmp options a b = true := by
        apply pairwise_sortByLe
        · intro a b
          simp only [listCmp, hu, if_true]
          exact publishedAsc_total a b
        · intro a b c
          simp only [listCmp, hu, if_true]
          exact publishedAsc_trans a b c
      rw [hviews]
      apply List.pairwise_map.mpr
      refine ((hsort.sublist (List.drop_sublist _ _)).sublist (List.take_sublist _ _)).imp ?_
      intro a b hab
      simp only [listCmp, hu, if_true, publishedAsc, decide_eq_true_eq] at hab
      exact hab
  · intro hu
    have hsort : (sortByLe (listCmp options)
        ((allJoinsRows db.post_report db user.person.id).filter
          (listPred options user))).Pairwise fun a b => listCmp options a b = true := by
      apply pairwise_sortByLe
      · intro a b
        simp only [listCmp, hu, Bool.false_eq_true, if_false, ite_false]
        exact publishedDesc_total a b
      · intro a b c
        simp only [listCmp, hu, Bool.false_eq_true, if_false, ite_false]
        exact publishedDesc_trans a b c
    rw [hviews]
    apply List.pairwise_map.mpr
    refine ((hsort.sublist (List.drop_sublist _ _)).sublist (List.take_sublist _ _)).imp ?_
    intro a b hab
    simp only [listCmp, hu, Bool.false_eq_true, if_false, ite_false, publishedDesc,
      decide_eq_true_eq] at hab
    exact hab

/-- C10: although `list` attaches the moderator-visibility filter to the
builder after limit and offset, the executed query applies every WHERE
predicate — the visibility filter included — before ordering and pagination:
the page is a window of the restricted ordered row set, and a short page
means no further visible rows exist at later offsets. -/
theorem c10_filter_before_pagination (options : PostReportQuery) (db : Db)
    (user : LocalUserView) (views : List PostReportView) {l o : Int}
    (hadmin : user.local_user.admin = false)
    (hlo : limit_and_offset options.page options.limit = .ok (l, o))
    (h : options.list db user = .ok views) :
    views = (((sortByLe (listCmp options)
        ((allJoinsRows db.post_report db user.person.id).filter
          (listPred options user))).drop o.toNat).take l.toNat).map selectView ∧
    (∀ jr, listPred options user jr = true →
      (jr.my_community_actions.bind CommunityActions.became_moderator).isSome = true) ∧
    (views.length < l.toNat →
      (sortByLe (listCmp options)
        ((allJoinsRows db.post_report db user.person.id).filter
          (listPred options user))).length ≤ o.toNat + views.length) := by
  have hpipe := list_eq options db user hlo
  rw [h] at hpipe
  have hviews : views = (((sortByLe (listCmp options)
      ((allJoinsRows db.post_report db user.person.id).filter
        (listPred options user))).drop o.toNat).take l.toNat).map selectView := by
    simpa using hpipe
  refine ⟨hviews, fun jr hjr => listPred_mod hjr hadmin, ?_⟩
  intro hlt
  have hlen : views.length = min l.toNat
      ((sortByLe (listCmp options)
        ((allJoinsRows db.post_report db user.person.id).filter
          (listPred options user))).length - o.toNat) := by
    rw [hviews]
    simp [List.length_take, List.length_drop]
  omega

/-- C1: two-tier visibility of the listing.  A non-admin viewer only ever
receives reports whose community has a moderator-action record for that
viewer; an admin viewer has no such restriction — any report whose join
partners exist and that passes the requested filters is returned (whatever
its community, and with no moderator record required), provided the page
covers it. -/
theorem c1_visibility_scoping (options : PostReportQuery) (db : Db) (user : LocalUserView)
    (views : List PostReportView) (h : options.list db user = .ok views) :
    (user.local_user.admin = false →
      ∀ v ∈ views, ∃ ca ∈ db.community_actions,
        ca.person_id = user.person.id ∧ ca.community_id = v.community.id ∧
        ca.became_moderator.isSome = true) ∧
    (user.local_user.admin = true →
      ∀ r ∈ db.post_report, ∀ p ∈ db.post, p.id = r.post_id →
        (∃ c ∈ db.community, c.id = p.community_id) →
        (∃ cr ∈ db.person, cr.id = r.creator_id) →
        (∃ pcr ∈ db.person, pcr.id = p.creator_id) →
        (∃ ag ∈ db.post_aggregates, ag.post_id = r.post_id) →
        (∀ cid, options.community_id = some cid → p.community_id = cid) →
        (∀ pid, options.post_id = some pid → p.id = pid) →
        (options.unresolved_only = true → r.resolved = false) →
        ∀ l o : Int, limit_and_offset options.page options.limit = .ok (l, o) →
          o.toNat = 0 → views.length < l.toNat →
          ∃ v ∈ views, v.post_report = r) := by
  constructor
  · intro hadmin v hv
    obtain ⟨jr, hjr, hpred, rfl⟩ := mem_of_list_ok h hv
    have hmod := listPred_mod hpred hadmin
    obtain ⟨-, -, ⟨hcmem, hcid⟩, -, -, -, hmyca, -⟩ := mem_allJoinsRows.mp hjr
    cases hca : jr.my_community_actions with
    | none => rw [hca] at hmod; simp at hmod
    | some ca =>
      rw [hca] at hmod
      rw [hca] at hmyca
      simp only [optMatchL] at hmyca
      rcases List.mem_filter.mp hmyca with ⟨hcamem, hcapred⟩
      simp only [Bool.and_eq_true, beq_iff_eq] at hcapred
      refine ⟨ca, hcamem, hcapred.1, ?_, by simpa using hmod⟩
      rw [hcapred.2]
      exact hcid.symm
  · intro hadmin r hr p hp hpid hcomm hcr hpcr hag hcfil hpfil hres l o hlo ho hlt
    obtain ⟨c, hc, hcid⟩ := hcomm
    obtain ⟨cr, hcrm, hcrid⟩ := hcr
    obtain ⟨pcr, hpcrm, hpcrid⟩ := hpcr
    obtain ⟨ag, hagm, hagid⟩ := hag
    set jr : JoinedRow :=
      { report := r, post := p, community := c, creator := cr, post_creator := pcr,
        creator_community_actions := (db.community_actions.filter fun ca =>
          ca.person_id == p.creator_id && ca.community_id == p.community_id).head?,
        my_community_actions := (db.community_actions.filter fun ca =>
          ca.person_id == user.person.id && ca.community_id == p.community_id).head?,
        creator_local_user := (db.local_user.filter fun lu =>
          lu.person_id == p.creator_id && lu.admin).head?,
        my_post_actions := (db.post_actions.filter fun pa =>
          pa.person_id == user.person.id && pa.post_id == p.id).head?,
        my_person_actions := (db.person_actions.filter fun pna =>
          pna.person_id == user.person.id && pna.target_id == p.creator_id).head?,
        counts := ag,
        resolver := (db.person.filter fun pe => r.resolver_id == some pe.id).head? }
      with hjrdef
    have hjr : jr ∈ allJoinsRows db.post_report db user.person.id := by
      refine mem_allJoinsRows.mpr ⟨hr, ⟨hp, hpid⟩, ⟨hc, hcid⟩, ⟨hcrm, hcrid⟩,
        ⟨hpcrm, hpcrid⟩, ?_, ?_, ?_, ?_, ?_, ⟨hagm, hagid⟩, ?_⟩ <;>
      · exact optMatchL_head? _
    have hpred : listPred options user jr = true := by
      simp only [listPred, hadmin, Bool.true_or, Bool.and_true, Bool.and_eq_true]
      refine ⟨⟨?_, ?_⟩, ?_⟩
      · cases hcase : options.community_id with
        | none => rfl
        | some cid => simp [hjrdef, hcfil cid hcase]
      · cases hcase : options.post_id with
        | none => rfl
        | some pid => simp [hjrdef, hpfil pid hcase]
      · cases hcase : options.unresolved_only with
        | false => rfl
        | true => simp [hjrdef, hres hcase]
    obtain ⟨l', o', hlo', hviews⟩ := list_ok_pipeline h
    rw [hlo] at hlo'
    injection hlo' with hpair
    injection hpair with hleq hoeq
    rw [← hleq, ← hoeq] at hviews
    have hfull : jr ∈ sortByLe (listCmp options)
        ((allJoinsRows db.post_report db user.person.id).filter (listPred options user)) :=
      (perm_sortByLe _ _).mem_iff.mpr (List.mem_filter.mpr ⟨hjr, hpred⟩)
    have htake : (((sortByLe (listCmp options)
        ((allJoinsRows db.post_report db user.person.id).filter
          (listPred options user))).drop o.toNat).take l.toNat) =
        sortByLe (listCmp options)
          ((allJoinsRows db.post_report db user.person.id).filter (listPred options user)) := by
      rw [ho, List.drop_zero]
      apply List.take_of_length_le
      have hlen : views.length = min l.toNat
          ((sortByLe (listCmp options)
            ((allJoinsRows db.post_report db user.person.id).filter
              (listPred options user))).length - o.toNat) := by
        rw [hviews]
        simp [List.length_take, List.length_drop]
      omega
    refine ⟨selectView jr, ?_, rfl⟩
    rw [hviews, htake]
    exact List.mem_map_of_mem selectView hfull

theorem readReport_isSome_iff {db : Db} {rid : PostReportId} {my : PersonId} :
    (readReport db rid my).toOption.isSome = true ↔
      allJoinsRows (db.post_report.filter fun r => r.id == rid) db my ≠ [] := by
  unfold readReport
  rw [load_all_joins]
  cases hrows : allJoinsRows (db.post_report.filter fun r => r.id == rid) db my with
  | nil => simp [Except.toOption]
  | cons jr rest => simp [Except.toOption]

theorem readReport_ok_props {db : Db} {rid : PostReportId} {my : PersonId}
    (hne : allJoinsRows (db.post_report.filter fun r => r.id == rid) db my ≠ []) :
    ∃ v, readReport db rid my = .ok v ∧ v.post_report.id = rid ∧
      v.post.id = v.post_report.post_id := by
  obtain ⟨v, hv⟩ := readReport_ok_of_ne_nil hne
  obtain ⟨jr, hjr, hveq⟩ := readReport_ok_elim hv
  obtain ⟨hrep, ⟨hpmem, hpid⟩, -⟩ := mem_allJoinsRows.mp hjr
  rcases List.mem_filter.mp hrep with ⟨-, hid⟩
  subst hveq
  exact ⟨selectView jr, hv, by simpa using hid, by simpa using hpid⟩

theorem base_partners_ne_nil {db : Db} {rid : PostReportId}
    (hex : ∃ r ∈ db.post_report, r.id = rid ∧ ∃ p ∈ db.post, p.id = r.post_id ∧
      (∃ c ∈ db.community, c.id = p.community_id) ∧
      (∃ cr ∈ db.person, cr.id = r.creator_id) ∧
      (∃ pcr ∈ db.person, pcr.id = p.creator_id) ∧
      (∃ ag ∈ db.post_aggregates, ag.post_id = r.post_id)) (my : PersonId) :
    allJoinsRows (db.post_report.filter fun r => r.id == rid) db my ≠ [] := by
  obtain ⟨r, hr, hrid, p, hp, hpid, hc, hcr, hpcr, hag⟩ := hex
  exact allJoinsRows_ne_nil_iff.mpr
    ⟨r, List.mem_filter.mpr ⟨hr, by simpa using hrid⟩, p, hp, hpid, hc, hcr, hpcr, hag⟩

/-- C3: the point lookup returns exactly one view when the report row (and
its inner-join partners) exist and `NotFound` when no report has the
identifier; it applies no visibility filtering — whether it succeeds is the
same for every viewer identity, in particular for admins, moderators and
ordinary users alike. -/
theorem c3_read_not_found (db : Db) (rid : PostReportId) :
    (∀ my : PersonId,
      (∃ r ∈ db.post_report, r.id = rid ∧ ∃ p ∈ db.post, p.id = r.post_id ∧
        (∃ c ∈ db.community, c.id = p.community_id) ∧
        (∃ cr ∈ db.person, cr.id = r.creator_id) ∧
        (∃ pcr ∈ db.person, pcr.id = p.creator_id) ∧
        (∃ ag ∈ db.post_aggregates, ag.post_id = r.post_id)) →
      ∃ v, readReport db rid my = .ok v ∧ v.post_report.id = rid) ∧
    ((∀ r ∈ db.post_report, r.id ≠ rid) →
      ∀ my : PersonId, readReport db rid my = .error .NotFound) ∧
    (∀ my₁ my₂ : PersonId,
      (readReport db rid my₁).toOption.isSome = (readReport db rid my₂).toOption.isSome) := by
  refine ⟨?_, ?_, ?_⟩
  · intro my hex
    obtain ⟨v, hv, hvid, -⟩ := readReport_ok_props (base_partners_ne_nil hex my)
    exact ⟨v, hv, hvid⟩
  · intro hno my
    have hnil : db.post_report.filter (fun r => r.id == rid) = [] := by
      apply List.filter_eq_nil_iff.mpr
      intro r hr
      simpa using hno r hr
    unfold readReport
    rw [load_all_joins, hnil]
    rfl
  · intro my₁ my₂
    have key : ∀ my : PersonId, (readReport db rid my).toOption.isSome = true ↔
        ∃ pr ∈ db.post_report.filter (fun r => r.id == rid), ∃ p ∈ db.post,
          p.id = pr.post_id ∧
          (∃ c ∈ db.community, c.id = p.community_id) ∧
          (∃ cr ∈ db.person, cr.id = pr.creator_id) ∧
          (∃ pcr ∈ db.person, pcr.id = p.creator_id) ∧
          (∃ ag ∈ db.post_aggregates, ag.post_id = pr.post_id) :=
      fun my => readReport_isSome_iff.trans allJoinsRows_ne_nil_iff
    by_cases hc : ∃ pr ∈ db.post_report.filter (fun r => r.id == rid), ∃ p ∈ db.post,
        p.id = pr.post_id ∧
        (∃ c ∈ db.community, c.id = p.community_id) ∧
        (∃ cr ∈ db.person, cr.id = pr.creator_id) ∧
        (∃ pcr ∈ db.person, pcr.id = p.creator_id) ∧
        (∃ ag ∈ db.post_aggregates, ag.post_id = pr.post_id)
    · rw [(key my₁).mpr hc, (key my₂).mpr hc]
    · have f1 : (readReport db rid my₁).toOption.isSome = false := by
        cases hb : (readReport db rid my₁).toOption.isSome with
        | false => rfl
        | true => exact absurd ((key my₁).mp hb) hc
      have f2 : (readReport db rid my₂).toOption.isSome = false := by
        cases hb : (readReport db rid my₂).toOption.isSome with
        | false => rfl
        | true => exact absurd ((key my₂).mp hb) hc
      rw [f1, f2]

/-- A dataset whose report exists but whose owning community row is absent:
the inner join drops the report and the point lookup answers `NotFound`. -/
def c8Db : Db :=
  { post_report := [⟨30, 2, 20, "orphaned", false, none, 1000⟩],
    post := [⟨20, 1, 10, false, false⟩],
    community := [],
    person := [⟨1, false⟩, ⟨2, false⟩],
    local_user := [], community_actions := [], post_actions := [], person_actions := [],
    post_aggregates := [⟨20, 0⟩] }

/-- C8 (counterexample): with the owning community row physically absent, the
report is silently dropped — the point lookup fails with `NotFound` even
though the report row exists — contradicting "a ReportView is still produced
... rather than the report being silently dropped". -/
theorem c8_counterexample :
    (∃ r ∈ c8Db.post_report, r.id = 30) ∧
    readReport c8Db 30 1 = .error .NotFound :=
  ⟨by decide, rfl⟩

/-- C8 (amended): removal of a community or an author is a flag on a
still-present row, and the join graph is insensitive to those flags: a report
whose community row is flagged removed and whose author row is flagged
deleted still yields a ReportView, with the reported item present (the view's
post is never null — it is inner-joined).  Only physical absence of an
inner-join partner row drops the report. -/
theorem c8_removal_flags_tolerated (db : Db) (rid : PostReportId) (my : PersonId)
    (r : PostReport) (p : Post) (c : Community) (cr pcr : Person) (ag : PostAggregates)
    (hr : r ∈ db.post_report) (hrid : r.id = rid)
    (hp : p ∈ db.post) (hpid : p.id = r.post_id)
    (hc : c ∈ db.community) (hcid : c.id = p.community_id)
    (_hcrem : c.removed = true)
    (hcr : cr ∈ db.person) (hcrid : cr.id = r.creator_id)
    (hpcr : pcr ∈ db.person) (hpcrid : pcr.id = p.creator_id)
    (_hpcrdel : pcr.deleted = true)
    (hag : ag ∈ db.post_aggregates) (hagid : ag.post_id = r.post_id) :
    ∃ v, readReport db rid my = .ok v ∧ v.post_report.id = rid ∧
      v.post.id = v.post_report.post_id := by
  apply readReport_ok_props
  exact base_partners_ne_nil
    ⟨r, hr, hrid, p, hp, hpid, ⟨c, hc, hcid⟩, ⟨cr, hcr, hcrid⟩, ⟨pcr, hpcr, hpcrid⟩,
      ⟨ag, hag, hagid⟩⟩ my

/-- The null-edge defaults of a produced view: absence of the matching
viewer-relative (or author-relative) row resolves each derived boolean to
false and each optional scalar to null. -/
def viewAbsentDefaults (db : Db) (viewer : PersonId) (v : PostReportView) : Prop :=
  ((∀ ca ∈ db.community_actions,
      ¬(ca.person_id = v.post.creator_id ∧ ca.community_id = v.post.community_id)) →
    v.creator_banned_from_community = false ∧ v.creator_is_moderator = false) ∧
  ((∀ lu ∈ db.local_user, ¬(lu.person_id = v.post.creator_id ∧ lu.admin = true)) →
    v.creator_is_admin = false) ∧
  ((∀ pa ∈ db.post_actions, ¬(pa.person_id = viewer ∧ pa.post_id = v.post.id)) →
    v.saved = false ∧ v.read = false ∧ v.hidden = false ∧ v.my_vote = none ∧
      v.unread_comments = v.counts.comments) ∧
  ((∀ pna ∈ db.person_actions, ¬(pna.person_id = viewer ∧ pna.target_id = v.post.creator_id)) →
    v.creator_blocked = false) ∧
  (v.post_report.resolver_id = none → v.resolver = none)

theorem absentDefaults_of_mem {base : List PostReport} {db : Db} {my : PersonId}
    {jr : JoinedRow} (h : jr ∈ allJoinsRows base db my) :
    viewAbsentDefaults db my (selectView jr) := by
  obtain ⟨-, -, -, -, -, hcca, -, hclu, hmypa, hmypna, -, hres⟩ := mem_allJoinsRows.mp h
  refine ⟨?_, ?_, ?_, ?_, ?_⟩
  · intro hno
    cases hcase : jr.creator_community_actions with
    | none => simp [selectView, hcase]
    | some ca =>
      rw [hcase] at hcca
      simp only [optMatchL] at hcca
      rcases List.mem_filter.mp hcca with ⟨hmem, hpred⟩
      simp only [Bool.and_eq_true, beq_iff_eq] at hpred
      exact absurd hpred (hno ca hmem)
  · intro hno
    cases hcase : jr.creator_local_user with
    | none => simp [selectView, hcase]
    | some lu =>
      rw [hcase] at hclu
      simp only [optMatchL] at hclu
      rcases List.mem_filter.mp hclu with ⟨hmem, hpred⟩
      simp only [Bool.and_eq_true, beq_iff_eq] at hpred
      exact absurd hpred (hno lu hmem)
  · intro hno
    cases hcase : jr.my_post_actions with
    | none => simp [selectView, hcase]
    | some pa =>
      rw [hcase] at hmypa
      simp only [optMatchL] at hmypa
      rcases List.mem_filter.mp hmypa with ⟨hmem, hpred⟩
      simp only [Bool.and_eq_true, beq_iff_eq] at hpred
      exact absurd hpred (hno pa hmem)
  · intro hno
    cases hcase : jr.my_person_actions with
    | none => simp [selectView, hcase]
    | some pna =>
      rw [hcase] at hmypna
      simp only [optMatchL] at hmypna
      rcases List.mem_filter.mp hmypna with ⟨hmem, hpred⟩
      simp only [Bool.and_eq_true, beq_iff_eq] at hpred
      exact absurd hpred (hno pna hmem)
  · intro hnone
    cases hcase : jr.resolver with
    | none => simp [selectView, hcase]
    | some pe =>
      rw [hcase] at hres
      simp only [optMatchL] at hres
      rcases List.mem_filter.mp hres with ⟨-, hpred⟩
      have : jr.report.resolver_id = some pe.id := by simpa using hpred
      rw [show (selectView jr).post_report = jr.report from rfl] at hnone
      rw [hnone] at this
      cases this

/-- C5: in every view produced by the listing or the point lookup, a missing
viewer-relative (or author-relative) left-join row deterministically yields
false booleans and null optional scalars — never an error: no community
action edge means not banned and not moderator, no admin local-user row means
not admin, no post action row means not saved/read/hidden and a null vote, no
person action row means not blocked, and a null resolver identifier means a
null resolver person. -/
theorem c5_absent_edges_default (db : Db) (options : PostReportQuery)
    (user : LocalUserView) (views : List PostReportView) (v : PostReportView)
    (rid : PostReportId) :
    ((options.list db user = .ok views ∧ v ∈ views) →
      viewAbsentDefaults db user.person.id v) ∧
    (readReport db rid user.person.id = .ok v →
      viewAbsentDefaults db user.person.id v) := by
  constructor
  · rintro ⟨h, hv⟩
    obtain ⟨jr, hjr, -, rfl⟩ := mem_of_list_ok h hv
    exact absentDefaults_of_mem hjr
  · intro h
    obtain ⟨jr, hjr, rfl⟩ := readReport_ok_elim h
    exact absentDefaults_of_mem hjr

/-- C6: the unread-comment count of a produced view is the raw total comment
count when the viewer has no recorded consumption (no post-action row with a
read-comments amount), and total minus the consumed amount when the viewer's
post-action row records one; the field is total, not a subtraction, by
default. -/
theorem c6_unread_comments (db : Db) (options : PostReportQuery)
    (user : LocalUserView) (views : List PostReportView) (v : PostReportView)
    (h : options.list db user = .ok views) (hv : v ∈ views) :
    ((∀ pa ∈ db.post_actions,
        ¬(pa.person_id = user.person.id ∧ pa.post_id = v.post.id ∧
          pa.read_comments_amount.isSome = true)) →
      v.unread_comments = v.counts.comments) ∧
    (∀ pa ∈ db.post_actions, ∀ n : Int,
      uniqueKeys db.post_actions (fun pa => (pa.person_id, pa.post_id)) →
      pa.person_id = user.person.id → pa.post_id = v.post.id →
      pa.read_comments_amount = some n →
      v.unread_comments = v.counts.comments - n) := by
  obtain ⟨jr, hjr, -, rfl⟩ := mem_of_list_ok h hv
  obtain ⟨-, -, -, -, -, -, -, -, hmypa, -, -, -⟩ := mem_allJoinsRows.mp hjr
  constructor
  · intro hno
    cases hcase : jr.my_post_actions with
    | none => simp [selectView, hcase]
    | some pa =>
      rw [hcase] at hmypa
      simp only [optMatchL] at hmypa
      rcases List.mem_filter.mp hmypa with ⟨hmem, hpred⟩
      simp only [Bool.and_eq_true, beq_iff_eq] at hpred
      cases hamt : pa.read_comments_amount with
      | none => simp [selectView, hcase, Option.bind, hamt]
      | some n => exact absurd ⟨hpred.1, hpred.2, by simp [hamt]⟩ (hno pa hmem)
  · intro pa hpa n hkeys hperson hpost hamt
    cases hcase : jr.my_post_actions with
    | none =>
      exfalso
      rw [hcase] at hmypa
      simp only [optMatchL] at hmypa
      have : pa ∈ db.post_actions.filter fun x =>
          x.person_id == user.person.id && x.post_id == jr.post.id := by
        apply List.mem_filter.mpr
        refine ⟨hpa, ?_⟩
        simp only [Bool.and_eq_true, beq_iff_eq]
        exact ⟨hperson, hpost⟩
      rw [hmypa] at this
      cases this
    | some pa' =>
      rw [hcase] at hmypa
      simp only [optMatchL] at hmypa
      rcases List.mem_filter.mp hmypa with ⟨hmem, hpred⟩
      simp only [Bool.and_eq_true, beq_iff_eq] at hpred
      have hpe : pa' = pa := by
        apply eq_of_uniqueKeys hkeys hmem hpa
        rw [hpred.1, hpred.2, hperson, hpost]
        rfl
      subst hpe
      simp [selectView, hcase, Option.bind, hamt]

/-- C7: the "author banned from community" and "author is moderator" fields
describe the reported person's standing and are computed from the
author-to-community action edge, independently of the viewer: two views of
the same report produced for two different viewers carry equal values in
these two fields. -/
theorem c7_author_standing_viewer_independent (db : Db)
    (options₁ options₂ : PostReportQuery) (u₁ u₂ : LocalUserView)
    (vs₁ vs₂ : List PostReportView) (v₁ v₂ : PostReportView)
    (hpk_r : uniqueKeys db.post_report PostReport.id)
    (hpk_p : uniqueKeys db.post Post.id)
    (hpk_ca : uniqueKeys db.community_actions fun ca => (ca.person_id, ca.community_id))
    (h₁ : options₁.list db u₁ = .ok vs₁) (h₂ : options₂.list db u₂ = .ok vs₂)
    (hv₁ : v₁ ∈ vs₁) (hv₂ : v₂ ∈ vs₂)
    (hid : v₁.post_report.id = v₂.post_report.id) :
    v₁.creator_banned_from_community = v₂.creator_banned_from_community ∧
    v₁.creator_is_moderator = v₂.creator_is_moderator := by
  obtain ⟨jr₁, hjr₁, -, rfl⟩ := mem_of_list_ok h₁ hv₁
  obtain ⟨jr₂, hjr₂, -, rfl⟩ := mem_of_list_ok h₂ hv₂
  obtain ⟨hr₁, ⟨hp₁, hpid₁⟩, -, -, -, hcca₁, -⟩ := mem_allJoinsRows.mp hjr₁
  obtain ⟨hr₂, ⟨hp₂, hpid₂⟩, -, -, -, hcca₂, -⟩ := mem_allJoinsRows.mp hjr₂
  have hrep : jr₁.report = jr₂.report := by
    apply eq_of_uniqueKeys hpk_r hr₁ hr₂
    exact hid
  have hpost : jr₁.post = jr₂.post := by
    apply eq_of_uniqueKeys hpk_p hp₁ hp₂
    rw [hpid₁, hpid₂, hrep]
  rw [hpost] at hcca₁
  have hcca : jr₁.creator_community_actions = jr₂.creator_community_actions := by
    refine optMatchL_eq ?_ hcca₁ hcca₂
    apply length_filter_le_one hpk_ca
    intro a b ha hb
    simp only [Bool.and_eq_true, beq_iff_eq] at ha hb
    rw [ha.1, ha.2, hb.1, hb.2]
  constructor
  · show (jr₁.creator_community_actions.bind CommunityActions.received_ban).isSome =
      (jr₂.creator_community_actions.bind CommunityActions.received_ban).isSome
    rw [hcca]
  · show (jr₁.creator_community_actions.bind CommunityActions.became_moderator).isSome =
      (jr₂.creator_community_actions.bind CommunityActions.became_moderator).isSome
    rw [hcca]

/-- C9: `resolve_all_for_object` marks every unresolved report on the item
resolved, stamps the given resolver on each of them, leaves every other
report untouched, and is idempotent: re-invoking it on the updated store
affects zero rows, returns success (it is total), and changes nothing. -/
theorem c9_resolve_all_idempotent (db : Db) (item : PostId) (res : PersonId) :
    (∀ r ∈ (resolve_all_for_object db item res).1.post_report,
      r.post_id = item → r.resolved = true) ∧
    (∀ r ∈ db.post_report, r.post_id = item → r.resolved = false →
      { r with resolved := true, resolver_id := some res } ∈
        (resolve_all_for_object db item res).1.post_report) ∧
    (∀ r ∈ db.post_report, (r.post_id ≠ item ∨ r.resolved = true) →
      r ∈ (resolve_all_for_object db item res).1.post_report) ∧
    resolve_all_for_object (resolve_all_for_object db item res).1 item res =
      ((resolve_all_for_object db item res).1, 0) := by
  refine ⟨?_, ?_, ?_, ?_⟩
  · intro r hr hitem
    simp only [resolve_all_for_object, List.mem_map] at hr
    obtain ⟨r₀, hr₀, heq⟩ := hr
    by_cases hc : (r₀.post_id == item && r₀.resolved == false) = true
    · rw [if_pos hc] at heq
      rw [← heq]
    · rw [if_neg hc] at heq
      subst heq
      simp only [Bool.and_eq_true, beq_iff_eq, not_and] at hc
      cases hres : r₀.resolved with
      | true => rfl
      | false => exact absurd hres (hc hitem)
  · intro r hr hitem hunres
    simp only [resolve_all_for_object, List.mem_map]
    refine ⟨r, hr, ?_⟩
    rw [if_pos (by simp [hitem, hunres])]
  · intro r hr hcond
    simp only [resolve_all_for_object, List.mem_map]
    refine ⟨r, hr, ?_⟩
    have hcond' : ¬(r.post_id == item && r.resolved == false) = true := by
      simp only [Bool.and_eq_true, beq_iff_eq, not_and]
      intro h1 h2
      rcases hcond with hc | hc
      · exact hc h1
      · rw [hc] at h2; cases h2
    rw [if_neg hcond']
  · simp only [resolve_all_for_object]
    have hmap : (db.post_report.map fun r =>
        if r.post_id == item && r.resolved == false then
          { r with resolved := true, resolver_id := some res } else r).map (fun r =>
        if r.post_id == item && r.resolved == false then
          { r with resolved := true, resolver_id := some res } else r) =
        db.post_report.map fun r =>
        if r.post_id == item && r.resolved == false then
          { r with resolved := true, resolver_id := some res } else r := by
      rw [List.map_map]
      apply List.map_congr_left
      intro r hr
      simp only [Function.comp]
      by_cases hc : (r.post_id == item && r.resolved == false) = true
      · rw [if_pos hc, if_neg (by simp)]
      · rw [if_neg hc, if_neg hc]
    have hcnt : ((db.post_report.map fun r =>
        if r.post_id == item && r.resolved == false then
          { r with resolved := true, resolver_id := some res } else r).filter fun r =>
          r.post_id == item && r.resolved == false) = [] := by
      apply List.filter_eq_nil_iff.mpr
      intro x hx
      rcases List.mem_map.mp hx with ⟨r, hr, heq⟩
      subst heq
      by_cases hc : (r.post_id == item && r.resolved == false) = true
      · rw [if_pos hc]
        simp
      · rw [if_neg hc]
        exact fun hcc => absurd hcc hc
    simp only [hmap, hcnt, List.length_nil]

/-! ## Canonical form of the join graph under key integrity -/

/-- Relational integrity of a seeded dataset: every table's primary key is
unique, and every foreign key of the report/post tables resolves. -/
def Db.integrity (db : Db) : Prop :=
  uniqueKeys db.post Post.id ∧
  uniqueKeys db.community Community.id ∧
  uniqueKeys db.person Person.id ∧
  uniqueKeys db.post_aggregates PostAggregates.post_id ∧
  uniqueKeys db.community_actions (fun ca => (ca.person_id, ca.community_id)) ∧
  uniqueKeys db.post_actions (fun pa => (pa.person_id, pa.post_id)) ∧
  uniqueKeys db.person_actions (fun pna => (pna.person_id, pna.target_id)) ∧
  uniqueKeys db.local_user LocalUser.person_id ∧
  (∀ r ∈ db.post_report, ∃ p ∈ db.post, p.id = r.post_id) ∧
  (∀ p ∈ db.post, ∃ c ∈ db.community, c.id = p.community_id) ∧
  (∀ r ∈ db.post_report, ∃ pe ∈ db.person, pe.id = r.creator_id) ∧
  (∀ p ∈ db.post, ∃ pe ∈ db.person, pe.id = p.creator_id) ∧
  (∀ p ∈ db.post, ∃ ag ∈ db.post_aggregates, ag.post_id = p.id)

/-- The canonical joined row of one report under key integrity: each join
partner is the first (hence only) matching row. -/
def rowFor (db : Db) (my : PersonId) (pr : PostReport) : Option JoinedRow :=
  match db.post.find? fun p => p.id == pr.post_id with
  | none => none
  | some p =>
  match db.community.find? fun c => c.id == p.community_id with
  | none => none
  | some c =>
  match db.person.find? fun pe => pe.id == pr.creator_id with
  | none => none
  | some cr =>
  match db.person.find? fun pe => pe.id == p.creator_id with
  | none => none
  | some pcr =>
  match db.post_aggregates.find? fun ag => ag.post_id == pr.post_id with
  | none => none
  | some ag =>
  some
    { report := pr
      post := p
      community := c
      creator := cr
      post_creator := pcr
      creator_community_actions := (db.community_actions.find? fun ca =>
        ca.person_id == p.creator_id && ca.community_id == p.community_id)
      my_community_actions := (db.community_actions.find? fun ca =>
        ca.person_id == my && ca.community_id == p.community_id)
      creator_local_user := (db.local_user.find? fun lu =>
        lu.person_id == p.creator_id && lu.admin)
      my_post_actions := (db.post_actions.find? fun pa =>
        pa.person_id == my && pa.post_id == p.id)
      my_person_actions := (db.person_actions.find? fun pna =>
        pna.person_id == my && pna.target_id == p.creator_id)
      counts := ag
      resolver := (db.person.find? fun pe => pr.resolver_id == some pe.id) }

theorem allJoinsRows_nil (db : Db) (my : PersonId) : allJoinsRows [] db my = [] := by
  simp [allJoinsRows]

theorem allJoinsRows_cons (r : PostReport) (rs : List PostReport) (db : Db) (my : PersonId) :
    allJoinsRows (r :: rs) db my = allJoinsRows [r] db my ++ allJoinsRows rs db my := by
  simp [allJoinsRows]

/-- Under a determined primary key, a left join has exactly one candidate:
the found row, or `none`. -/
theorem leftOpts_eq_singleton {l : List α} {p : α → Bool} {key : α → κ}
    (hnd : uniqueKeys l key) (hk : ∀ a b, p a = true → p b = true → key a = key b) :
    leftOpts (l.filter p) = [l.find? p] := by
  rw [filter_eq_find_toList hnd hk]
  cases l.find? p <;> simp [leftOpts]

theorem single_allJoinsRows (db : Db) (my : PersonId) (r : PostReport)
    (hpost : uniqueKeys db.post Post.id)
    (hcomm : uniqueKeys db.community Community.id)
    (hpers : uniqueKeys db.person Person.id)
    (hagg : uniqueKeys db.post_aggregates PostAggregates.post_id)
    (hca : uniqueKeys db.community_actions fun ca => (ca.person_id, ca.community_id))
    (hpa : uniqueKeys db.post_actions fun pa => (pa.person_id, pa.post_id))
    (hpna : uniqueKeys db.person_actions fun pna => (pna.person_id, pna.target_id))
    (hlu : uniqueKeys db.local_user LocalUser.person_id) :
    allJoinsRows [r] db my = (rowFor db my r).toList := by
  simp only [allJoinsRows, List.flatMap_cons, List.flatMap_nil, List.append_nil]
  have e1 : db.post.filter (fun p => p.id == r.post_id) =
      (db.post.find? (fun p => p.id == r.post_id)).toList :=
    filter_eq_find_toList hpost (fun a b ha hb => by
      simp only [beq_iff_eq] at ha hb; rw [ha, hb])
  rw [e1]
  cases hfp : db.post.find? (fun p => p.id == r.post_id) with
  | none => simp [rowFor, hfp]
  | some p =>
    simp only [Option.toList_some, List.flatMap_cons, List.flatMap_nil, List.append_nil]
    have e2 : db.community.filter (fun c => c.id == p.community_id) =
        (db.community.find? (fun c => c.id == p.community_id)).toList :=
      filter_eq_find_toList hcomm (fun a b ha hb => by
        simp only [beq_iff_eq] at ha hb; rw [ha, hb])
    have e3 : db.person.filter (fun pe => pe.id == r.creator_id) =
        (db.person.find? (fun pe => pe.id == r.creator_id)).toList :=
      filter_eq_find_toList hpers (fun a b ha hb => by
        simp only [beq_iff_eq] at ha hb; rw [ha, hb])
    have e4 : db.person.filter (fun pe => pe.id == p.creator_id) =
        (db.person.find? (fun pe => pe.id == p.creator_id)).toList :=
      filter_eq_find_toList hpers (fun a b ha hb => by
        simp only [beq_iff_eq] at ha hb; rw [ha, hb])
    have e5 : db.post_aggregates.filter (fun ag => ag.post_id == r.post_id) =
        (db.post_aggregates.find? (fun ag => ag.post_id == r.post_id)).toList :=
      filter_eq_find_toList hagg (fun a b ha hb => by
        simp only [beq_iff_eq] at ha hb; rw [ha, hb])
    have s1 : leftOpts (db.community_actions.filter fun ca =>
        ca.person_id == p.creator_id && ca.community_id == p.community_id) =
        [db.community_actions.find? fun ca =>
          ca.person_id == p.creator_id && ca.community_id == p.community_id] :=
      leftOpts_eq_singleton hca (fun a b ha hb => by
        simp only [Bool.and_eq_true, beq_iff_eq] at ha hb
        rw [ha.1, ha.2, hb.1, hb.2])
    have s2 : leftOpts (db.community_actions.filter fun ca =>
        ca.person_id == my && ca.community_id == p.community_id) =
        [db.community_actions.find? fun ca =>
          ca.person_id == my && ca.community_id == p.community_id] :=
      leftOpts_eq_singleton hca (fun a b ha hb => by
        simp only [Bool.and_eq_true, beq_iff_eq] at ha hb
        rw [ha.1, ha.2, hb.1, hb.2])
    have s3 : leftOpts (db.local_user.filter fun lu =>
        lu.person_id == p.creator_id && lu.admin) =
        [db.local_user.find? fun lu => lu.person_id == p.creator_id && lu.admin] :=
      leftOpts_eq_singleton hlu (fun a b ha hb => by
        simp only [Bool.and_eq_true, beq_iff_eq] at ha hb
        rw [ha.1, hb.1])
    have s4 : leftOpts (db.post_actions.filter fun pa =>
        pa.person_id == my && pa.post_id == p.id) =
        [db.post_actions.find? fun pa => pa.person_id == my && pa.post_id == p.id] :=
      leftOpts_eq_singleton hpa (fun a b ha hb => by
        simp only [Bool.and_eq_true, beq_iff_eq] at ha hb
        rw [ha.1, ha.2, hb.1, hb.2])
    have s5 : leftOpts (db.person_actions.filter fun pna =>
        pna.person_id == my && pna.target_id == p.creator_id) =
        [db.person_actions.find? fun pna =>
          pna.person_id == my && pna.target_id == p.creator_id] :=
      leftOpts_eq_singleton hpna (fun a b ha hb => by
        simp only [Bool.and_eq_true, beq_iff_eq] at ha hb
        rw [ha.1, ha.2, hb.1, hb.2])
    have s6 : leftOpts (db.person.filter fun pe => r.resolver_id == some pe.id) =
        [db.person.find? fun pe => r.resolver_id == some pe.id] :=
      leftOpts_eq_singleton hpers (fun a b ha hb => by
        simp only [beq_iff_eq] at ha hb
        rw [ha] at hb
        simpa using hb)
    rw [e2, e3, e4, e5, s1, s2, s3, s4, s5, s6]
    cases hfc : db.community.find? (fun c => c.id == p.community_id) with
    | none => simp [rowFor, hfp, hfc]
    | some c =>
      cases hfcr : db.person.find? (fun pe => pe.id == r.creator_id) with
      | none => simp [rowFor, hfp, hfc, hfcr]
      | some cr =>
        cases hfpcr : db.person.find? (fun pe => pe.id == p.creator_id) with
        | none => simp [rowFor, hfp, hfc, hfcr, hfpcr]
        | some pcr =>
          cases hfag : db.post_aggregates.find? (fun ag => ag.post_id == r.post_id) with
          | none => simp [rowFor, hfp, hfc, hfcr, hfpcr, hfag]
          | some ag => simp [rowFor, hfp, hfc, hfcr, hfpcr, hfag]

theorem allJoinsRows_eq_filterMap (db : Db) (my : PersonId)
    (hpost : uniqueKeys db.post Post.id)
    (hcomm : uniqueKeys db.community Community.id)
    (hpers : uniqueKeys db.person Person.id)
    (hagg : uniqueKeys db.post_aggregates PostAggregates.post_id)
    (hca : uniqueKeys db.community_actions fun ca => (ca.person_id, ca.community_id))
    (hpa : uniqueKeys db.post_actions fun pa => (pa.person_id, pa.post_id))
    (hpna : uniqueKeys db.person_actions fun pna => (pna.person_id, pna.target_id))
    (hlu : uniqueKeys db.local_user LocalUser.person_id)
    (base : List PostReport) :
    allJoinsRows base db my = base.filterMap (rowFor db my) := by
  induction base with
  | nil => simp [allJoinsRows_nil]
  | cons r rs ih =>
    rw [allJoinsRows_cons, single_allJoinsRows db my r hpost hcomm hpers hagg hca hpa hpna hlu,
      ih]
    cases hr : rowFor db my r <;> simp [List.filterMap_cons, hr]

theorem rowFor_isSome (db : Db) (my : PersonId) (r : PostReport)
    (hI : db.integrity) (hr : r ∈ db.post_report) :
    ∃ jr, rowFor db my r = some jr ∧ jr.report = r ∧
      db.post.find? (fun p => p.id == r.post_id) = some jr.post ∧
      jr.my_community_actions = db.community_actions.find? (fun ca =>
        ca.person_id == my && ca.community_id == jr.post.community_id) := by
  obtain ⟨-, -, -, -, -, -, -, -, fk_post, fk_comm, fk_rcr, fk_pcr, fk_ag⟩ := hI
  obtain ⟨p, hp, hpid⟩ := fk_post r hr
  have hfp : (db.post.find? fun x => x.id == r.post_id).isSome :=
    List.find?_isSome.mpr ⟨p, hp, by simp [hpid]⟩
  obtain ⟨p₀, hfp₀⟩ := Option.isSome_iff_exists.mp hfp
  have hp₀mem := List.mem_of_find?_eq_some hfp₀
  have hp₀id : p₀.id = r.post_id := by simpa using List.find?_some hfp₀
  obtain ⟨c, hc, hcid⟩ := fk_comm p₀ hp₀mem
  have hfc : (db.community.find? fun x => x.id == p₀.community_id).isSome :=
    List.find?_isSome.mpr ⟨c, hc, by simp [hcid]⟩
  obtain ⟨c₀, hfc₀⟩ := Option.isSome_iff_exists.mp hfc
  obtain ⟨cr, hcr, hcrid⟩ := fk_rcr r hr
  have hfcr : (db.person.find? fun x => x.id == r.creator_id).isSome :=
    List.find?_isSome.mpr ⟨cr, hcr, by simp [hcrid]⟩
  obtain ⟨cr₀, hfcr₀⟩ := Option.isSome_iff_exists.mp hfcr
  obtain ⟨pcr, hpcr, hpcrid⟩ := fk_pcr p₀ hp₀mem
  have hfpcr : (db.person.find? fun x => x.id == p₀.creator_id).isSome :=
    List.find?_isSome.mpr ⟨pcr, hpcr, by simp [hpcrid]⟩
  obtain ⟨pcr₀, hfpcr₀⟩ := Option.isSome_iff_exists.mp hfpcr
  obtain ⟨ag, hag, hagid⟩ := fk_ag p₀ hp₀mem
  have hfag : (db.post_aggregates.find? fun x => x.post_id == r.post_id).isSome :=
    List.find?_isSome.mpr ⟨ag, hag, by simp [hagid, hp₀id]⟩
  obtain ⟨ag₀, hfag₀⟩ := Option.isSome_iff_exists.mp hfag
  have hrow : rowFor db my r = some
      { report := r
        post := p₀
        community := c₀
        creator := cr₀
        post_creator := pcr₀
        creator_community_actions := (db.community_actions.find? fun ca =>
          ca.person_id == p₀.creator_id && ca.community_id == p₀.community_id)
        my_community_actions := (db.community_actions.find? fun ca =>
          ca.person_id == my && ca.community_id == p₀.community_id)
        creator_local_user := (db.local_user.find? fun lu =>
          lu.person_id == p₀.creator_id && lu.admin)
        my_post_actions := (db.post_actions.find? fun pa =>
          pa.person_id == my && pa.post_id == p₀.id)
        my_person_actions := (db.person_actions.find? fun pna =>
          pna.person_id == my && pna.target_id == p₀.creator_id)
        counts := ag₀
        resolver := (db.person.find? fun pe => r.resolver_id == some pe.id) } := by
    simp [rowFor, hfp₀, hfc₀, hfcr₀, hfpcr₀, hfag₀]
  exact ⟨_, hrow, rfl, hfp₀, rfl⟩

theorem mod_filter_length (db : Db) (my : PersonId) (comm : CommunityId)
    (hca : uniqueKeys db.community_actions fun ca => (ca.person_id, ca.community_id)) :
    (db.community_actions.filter fun ca =>
        ca.community_id == comm && ca.person_id == my && ca.became_moderator.isSome).length =
      if ((db.community_actions.find? fun ca =>
          ca.person_id == my && ca.community_id == comm).bind
          CommunityActions.became_moderator).isSome then 1 else 0 := by
  have estrong : db.community_actions.filter (fun ca =>
      ca.community_id == comm && ca.person_id == my && ca.became_moderator.isSome) =
      (db.community_actions.find? fun ca =>
        ca.community_id == comm && ca.person_id == my && ca.became_moderator.isSome).toList :=
    filter_eq_find_toList hca (fun a b ha hb => by
      simp only [Bool.and_eq_true, beq_iff_eq] at ha hb
      rw [ha.1.2, ha.1.1, hb.1.2, hb.1.1])
  rw [estrong]
  cases hw : db.community_actions.find? (fun ca =>
      ca.person_id == my && ca.community_id == comm) with
  | none =>
    have hs : db.community_actions.find? (fun ca =>
        ca.community_id == comm && ca.person_id == my && ca.became_moderator.isSome) = none := by
      cases hs' : db.community_actions.find? (fun ca =>
          ca.community_id == comm && ca.person_id == my && ca.became_moderator.isSome) with
      | none => rfl
      | some x =>
        have hxmem := List.mem_of_find?_eq_some hs'
        have hxpred := List.find?_some hs'
        simp only [Bool.and_eq_true, beq_iff_eq] at hxpred
        have : (db.community_actions.find? fun ca =>
            ca.person_id == my && ca.community_id == comm).isSome :=
          List.find?_isSome.mpr ⟨x, hxmem, by simp [hxpred.1.1, hxpred.1.2]⟩
        rw [hw] at this
        cases this
    rw [hs]
    simp
  | some y =>
    have hymem := List.mem_of_find?_eq_some hw
    have hy := List.find?_some hw
    simp only [Bool.and_eq_true, beq_iff_eq] at hy
    cases hmod : y.became_moderator with
    | some t =>
      have hex : (db.community_actions.find? fun ca =>
          ca.community_id == comm && ca.person_id == my && ca.became_moderator.isSome).isSome :=
        List.find?_isSome.mpr ⟨y, hymem, by simp [hy.1, hy.2, hmod]⟩
      obtain ⟨x, hx⟩ := Option.isSome_iff_exists.mp hex
      have hxmem := List.mem_of_find?_eq_some hx
      have hxpred := List.find?_some hx
      simp only [Bool.and_eq_true, beq_iff_eq] at hxpred
      have hxy : x = y := eq_of_uniqueKeys hca hxmem hymem (by
        rw [hxpred.1.2, hxpred.1.1, hy.1, hy.2])
      rw [hx, hxy]
      simp [hmod]
    | none =>
      have hs : db.community_actions.find? (fun ca =>
          ca.community_id == comm && ca.person_id == my && ca.became_moderator.isSome) = none := by
        cases hs' : db.community_actions.find? (fun ca =>
            ca.community_id == comm && ca.person_id == my && ca.became_moderator.isSome) with
        | none => rfl
        | some x =>
          have hxmem := List.mem_of_find?_eq_some hs'
          have hxpred := List.find?_some hs'
          simp only [Bool.and_eq_true, beq_iff_eq] at hxpred
          have hxy : x = y := eq_of_uniqueKeys hca hxmem hymem (by
            rw [hxpred.1.2, hxpred.1.1, hy.1, hy.2])
          rw [hxy, hmod] at hxpred
          simp at hxpred
      rw [hs]
      simp [hmod]

/-- The count pipeline of `get_report_count`, generalized over the base
report list (the source counts over the whole `post_report` table). -/
def countAux (db : Db) (my_person_id : PersonId) (admin : Bool)
    (community_id : Option CommunityId) (rs : List PostReport) : Nat :=
  let rows : List (PostReport × Post) := rs.flatMap fun r =>
    (db.post.filter fun p => p.id == r.post_id).map fun p => (r, p)
  let rows := rows.filter fun rp => rp.1.resolved == false
  let rows : List (PostReport × Post) := match community_id with
    | some cid => rows.filter fun rp => rp.2.community_id == cid
    | none => rows
  if !admin then
    (rows.flatMap fun (rp : PostReport × Post) =>
      (db.community_actions.filter fun (ca : CommunityActions) =>
        ca.community_id == rp.2.community_id && ca.person_id == my_person_id &&
          ca.became_moderator.isSome).map fun ca => (rp, ca)).length
  else
    rows.length

theorem get_report_count_eq_countAux (db : Db) (my : PersonId) (admin : Bool)
    (cid : Option CommunityId) :
    get_report_count db my admin cid = countAux db my admin cid db.post_report := rfl

theorem countAux_nil (db : Db) (my : PersonId) (admin : Bool) (cid : Option CommunityId) :
    countAux db my admin cid [] = 0 := by
  cases admin <;> rcases cid with _ | c <;> simp [countAux]

theorem countAux_cons (db : Db) (my : PersonId) (admin : Bool) (cid : Option CommunityId)
    (r : PostReport) (rs : List PostReport) :
    countAux db my admin cid (r :: rs) =
      countAux db my admin cid [r] + countAux db my admin cid rs := by
  cases admin <;> rcases cid with _ | c <;>
    simp [countAux, List.flatMap_cons, List.flatMap_nil, List.filter_append,
      List.flatMap_append, List.length_append, List.append_nil]

theorem single_contrib (db : Db) (options : PostReportQuery) (user : LocalUserView)
    (hpid : options.post_id = none) (hu : options.unresolved_only = true)
    (hI : db.integrity) (r : PostReport) (hr : r ∈ db.post_report) :
    countAux db user.person.id user.local_user.admin options.community_id [r] =
      (([r].filterMap (rowFor db user.person.id)).filter (listPred options user)).length := by
  obtain ⟨jr, hrow, hrep, hfp, hmyca⟩ := rowFor_isSome db user.person.id r hI hr
  have hca : uniqueKeys db.community_actions fun ca => (ca.person_id, ca.community_id) :=
    hI.2.2.2.2.1
  have hpostu : uniqueKeys db.post Post.id := hI.1
  have efp : db.post.filter (fun p => p.id == r.post_id) = [jr.post] := by
    rw [filter_eq_find_toList hpostu (fun a b ha hb => by
      simp only [beq_iff_eq] at ha hb; rw [ha, hb]), hfp]
    rfl
  have hjrpostid : jr.post.id = r.post_id := by simpa using List.find?_some hfp
  have hlp : listPred options user jr =
      ((match options.community_id with
        | some cid => jr.post.community_id == cid
        | none => true) &&
       (r.resolved == false) &&
       (user.local_user.admin ||
        (jr.my_community_actions.bind CommunityActions.became_moderator).isSome)) := by
    simp [listPred, hpid, hu, hrep]
  simp only [List.filterMap_cons, List.filterMap_nil, hrow, List.filter_cons]
  rw [hlp]
  simp only [countAux, List.flatMap_cons, List.flatMap_nil, List.append_nil, efp,
    List.map_cons, List.map_nil]
  rcases hcid : options.community_id with _ | cid
  · cases hres : r.resolved
    · cases hadm : user.local_user.admin
      · simp only [List.filter_cons, hres, List.filter_nil, List.flatMap_cons,
          List.flatMap_nil, List.append_nil, Bool.not_false, if_true, if_false,
          List.length_map, beq_self_eq_true, Bool.true_and, Bool.and_true]
        rw [mod_filter_length db user.person.id jr.post.community_id hca, ← hmyca]
        cases hmodo : (jr.my_community_actions.bind CommunityActions.became_moderator).isSome <;>
          simp [hmodo]
      · simp [hres, hadm]
    · simp [hres]
  · cases hres : r.resolved
    · cases hadm : user.local_user.admin
      · by_cases hcm : (jr.post.community_id == cid) = true
        · simp only [List.filter_cons, hres, hcm, List.filter_nil, List.flatMap_cons,
            List.flatMap_nil, List.append_nil, Bool.not_false, if_true, if_false,
            List.length_map, beq_self_eq_true, Bool.true_and, Bool.and_true]
          rw [mod_filter_length db user.person.id jr.post.community_id hca, ← hmyca]
          cases hmodo : (jr.my_community_actions.bind CommunityActions.became_moderator).isSome <;>
            simp [hmodo, hcm]
        · simp [hres, hcm]
      · by_cases hcm : (jr.post.community_id == cid) = true
        · simp [hres, hadm, hcm]
        · simp [hres, hadm, hcm]
    · simp [hres]

theorem count_eq_filtered_length (db : Db) (options : PostReportQuery) (user : LocalUserView)
    (hpid : options.post_id = none) (hu : options.unresolved_only = true)
    (hI : db.integrity) :
    get_report_count db user.person.id user.local_user.admin options.community_id =
      ((db.post_report.filterMap (rowFor db user.person.id)).filter
        (listPred options user)).length := by
  rw [get_report_count_eq_countAux]
  suffices h : ∀ rs : List PostReport, (∀ r ∈ rs, r ∈ db.post_report) →
      countAux db user.person.id user.local_user.admin options.community_id rs =
        ((rs.filterMap (rowFor db user.person.id)).filter (listPred options user)).length by
    exact h db.post_report fun _ hr => hr
  intro rs hsub
  induction rs with
  | nil => simp [countAux_nil]
  | cons r rs ih =>
    rw [countAux_cons,
      single_contrib db options user hpid hu hI r (hsub r (List.mem_cons_self _ _)),
      ih fun x hx => hsub x (List.mem_cons_of_mem _ hx)]
    cases hf : rowFor db user.person.id r with
    | none => simp [List.filterMap_cons, hf]
    | some jr =>
      by_cases hp : listPred options user jr = true
      · simp only [List.filterMap_cons, hf, List.filter_cons, hp, if_true, List.length_cons,
          List.filterMap_nil, List.filter_nil, List.length_nil]
        omega
      · simp [List.filterMap_cons, hf, List.filter_cons, hp]

/-- C4 (amended): for a dataset with relational key/foreign-key integrity,
when the query asks for the unresolved-only listing with no post filter, the
first page (no page argument, hence offset 0), and the matching row count
fits within the page limit, the unresolved-report count equals the length of
the returned listing for the same viewer and community filter. -/
theorem c4_count_matches_list (db : Db) (options : PostReportQuery) (user : LocalUserView)
    (views : List PostReportView) {l o : Int}
    (hI : db.integrity)
    (hpid : options.post_id = none) (hu : options.unresolved_only = true)
    (hlo : limit_and_offset options.page options.limit = .ok (l, o)) (ho : o.toNat = 0)
    (hfit : get_report_count db user.person.id user.local_user.admin options.community_id ≤
      l.toNat)
    (h : options.list db user = .ok views) :
    views.length =
      get_report_count db user.person.id user.local_user.admin options.community_id := by
  obtain ⟨l', o', hlo', hviews⟩ := list_ok_pipeline h
  rw [hlo] at hlo'
  injection hlo' with hpair
  injection hpair with hleq hoeq
  rw [← hleq, ← hoeq] at hviews
  have hcount := count_eq_filtered_length db options user hpid hu hI
  obtain ⟨hpostu, hcommu, hpersu, haggu, hcau, hpau, hpnau, hluu, -⟩ := hI
  have hrows := allJoinsRows_eq_filterMap db user.person.id hpostu hcommu hpersu haggu hcau
    hpau hpnau hluu db.post_report
  rw [hviews, hrows]
  have hsortlen : (sortByLe (listCmp options)
      ((db.post_report.filterMap (rowFor db user.person.id)).filter
        (listPred options user))).length =
      ((db.post_report.filterMap (rowFor db user.person.id)).filter
        (listPred options user)).length :=
    (perm_sortByLe _ _).length_eq
  rw [hcount] at hfit ⊢
  simp only [List.length_map, List.length_take, List.length_drop, hsortlen, ho]
  omega

instance (l : List α) (key : α → κ) [DecidableEq κ] : Decidable (uniqueKeys l key) :=
  inferInstanceAs (Decidable (l.map key).Nodup)

instance (db : Db) : Decidable db.integrity :=
  inferInstanceAs (Decidable
    (uniqueKeys db.post Post.id ∧
     uniqueKeys db.community Community.id ∧
     uniqueKeys db.person Person.id ∧
     uniqueKeys db.post_aggregates PostAggregates.post_id ∧
     uniqueKeys db.community_actions (fun ca => (ca.person_id, ca.community_id)) ∧
     uniqueKeys db.post_actions (fun pa => (pa.person_id, pa.post_id)) ∧
     uniqueKeys db.person_actions (fun pna => (pna.person_id, pna.target_id)) ∧
     uniqueKeys db.local_user LocalUser.person_id ∧
     (∀ r ∈ db.post_report, ∃ p ∈ db.post, p.id = r.post_id) ∧
     (∀ p ∈ db.post, ∃ c ∈ db.community, c.id = p.community_id) ∧
     (∀ r ∈ db.post_report, ∃ pe ∈ db.person, pe.id = r.creator_id) ∧
     (∀ p ∈ db.post, ∃ pe ∈ db.person, pe.id = p.creator_id) ∧
     (∀ p ∈ db.post, ∃ ag ∈ db.post_aggregates, ag.post_id = p.id)))

/-! ## Concrete datasets and witnesses -/

/-- Fallback view used only to extract elements of computed lists. -/
def dummyView : PostReportView :=
  ⟨⟨0, 0, 0, "", false, none, 0⟩, ⟨0, 0, 0, false, false⟩, ⟨0, false⟩, ⟨0, false⟩, ⟨0, false⟩,
    false, false, false, .notSubscribed, false, false, false, false, none, 0, ⟨0, 0⟩, none⟩

/-- Timmy's moderator action edge on community 10. -/
def modCa : CommunityActions := ⟨1, 10, none, false, some 100, none⟩

/-- The test scenario of the source: community 10 moderated by timmy (1),
two posts by timmy, reported by sara (2, published 1000) and jessica (3,
published 2000). -/
def sampleDb : Db :=
  { post_report := [⟨30, 2, 20, "from sara", false, none, 1000⟩,
      ⟨31, 3, 21, "from jessica", false, none, 2000⟩],
    post := [⟨20, 1, 10, false, false⟩, ⟨21, 1, 10, false, false⟩],
    community := [⟨10, false⟩],
    person := [⟨1, false⟩, ⟨2, false⟩, ⟨3, false⟩],
    local_user := [⟨1, false⟩],
    community_actions := [modCa],
    post_actions := [],
    person_actions := [],
    post_aggregates := [⟨20, 0⟩, ⟨21, 0⟩] }

def timmyView : LocalUserView := ⟨⟨1, false⟩, ⟨1, false⟩⟩

def adminView : LocalUserView := ⟨⟨1, true⟩, ⟨1, false⟩⟩

def unresolvedOpts : PostReportQuery := { unresolved_only := true }

def sampleViews : List PostReportView :=
  (({} : PostReportQuery).list sampleDb timmyView).toOption.getD []

def sampleUnresolvedViews : List PostReportView :=
  (unresolvedOpts.list sampleDb timmyView).toOption.getD []

/-- Sample data with a second community 11 that timmy does not moderate,
holding report 32. -/
def c1r3 : PostReport := ⟨32, 3, 22, "in community B", false, none, 3000⟩

def c1p3 : Post := ⟨22, 2, 11, false, false⟩

def c1AdminDb : Db :=
  { sampleDb with
    post_report := sampleDb.post_report ++ [c1r3]
    post := sampleDb.post ++ [c1p3]
    community := sampleDb.community ++ [⟨11, false⟩]
    post_aggregates := sampleDb.post_aggregates ++ [⟨22, 5⟩] }

def c1AdminViews : List PostReportView :=
  (({} : PostReportQuery).list c1AdminDb adminView).toOption.getD []

theorem c1_visibility_scoping_witness :
    (∀ v ∈ sampleViews, ∃ ca ∈ sampleDb.community_actions,
      ca.person_id = 1 ∧ ca.community_id = v.community.id ∧
      ca.became_moderator.isSome = true) ∧
    (∃ v ∈ c1AdminViews, v.post_report = c1r3) ∧
    (∀ ca ∈ c1AdminDb.community_actions, ca.community_id ≠ 11) :=
  ⟨(c1_visibility_scoping {} sampleDb timmyView sampleViews rfl).1 rfl,
   (c1_visibility_scoping {} c1AdminDb adminView c1AdminViews rfl).2 rfl c1r3 (by decide)
     c1p3 (by decide) rfl (by decide) (by decide) (by decide) (by decide)
     (fun cid hc => Option.noConfusion hc) (fun pid hc => Option.noConfusion hc)
     (fun hc => Bool.noConfusion hc) 10 0 rfl rfl (by decide),
   by decide⟩

theorem c2_resolution_ordering_witness :
    ((unresolvedOpts.unresolved_only = true →
      (∀ v ∈ sampleUnresolvedViews, v.post_report.resolved = false) ∧
      sampleUnresolvedViews.Pairwise
        (fun a b => a.post_report.published ≤ b.post_report.published)) ∧
     (unresolvedOpts.unresolved_only = false →
      sampleUnresolvedViews.Pairwise
        fun a b => b.post_report.published ≤ a.post_report.published)) ∧
    sampleUnresolvedViews.map (fun v => v.post_report.published) = [1000, 2000] ∧
    sampleViews.map (fun v => v.post_report.published) = [2000, 1000] :=
  ⟨c2_resolution_ordering unresolvedOpts sampleDb timmyView sampleUnresolvedViews rfl,
   by decide, by decide⟩

theorem c3_read_not_found_witness :
    (∃ v, readReport sampleDb 31 1 = .ok v ∧ v.post_report.id = 31) ∧
    readReport sampleDb 99 5 = .error .NotFound ∧
    (readReport sampleDb 31 1).toOption.isSome = (readReport sampleDb 31 42).toOption.isSome :=
  ⟨(c3_read_not_found sampleDb 31).1 1 (by decide),
   (c3_read_not_found sampleDb 99).2.1 (by decide) 5,
   (c3_read_not_found sampleDb 31).2.2 1 42⟩

/-- Eleven unresolved reports by eleven distinct reporters on one post of
timmy's moderated community: one more than the default page size. -/
def c4Db : Db :=
  { post_report := (List.range 11).map fun i =>
      ⟨30 + i, 40 + i, 20, "r", false, none, 1000 + (i : Int)⟩,
    post := [⟨20, 1, 10, false, false⟩],
    community := [⟨10, false⟩],
    person := ⟨1, false⟩ :: ((List.range 11).map fun i => ⟨40 + i, false⟩),
    local_user := [⟨1, false⟩],
    community_actions := [modCa],
    post_actions := [],
    person_actions := [],
    post_aggregates := [⟨20, 0⟩] }

def c4Views : List PostReportView :=
  (unresolvedOpts.list c4Db timmyView).toOption.getD []

/-- C4 (counterexample): on a fully key/foreign-key-sound dataset of eleven
unresolved reports, the count is 11 while the unresolved-only listing for the
same viewer and (absent) community filter is truncated by the default page
limit to 10 — the claimed equality fails. -/
theorem c4_counterexample :
    unresolvedOpts.list c4Db timmyView = .ok c4Views ∧
    c4Views.length = 10 ∧
    get_report_count c4Db 1 false none = 11 ∧
    get_report_count c4Db 1 false none ≠ c4Views.length :=
  ⟨rfl, by decide, by decide, by decide⟩

theorem c4_count_matches_list_witness :
    unresolvedOpts.list sampleDb timmyView = .ok sampleUnresolvedViews ∧
    sampleUnresolvedViews.length = get_report_count sampleDb 1 false none :=
  ⟨rfl, c4_count_matches_list sampleDb unresolvedOpts timmyView sampleUnresolvedViews
    (by decide) rfl rfl rfl rfl (by decide) rfl⟩

/-- A report on a post whose author (person 4) has no action edges, viewed by
jessica (3) who has none either. -/
def c5Db : Db :=
  { post_report := [⟨30, 2, 20, "fresh", false, none, 500⟩],
    post := [⟨20, 4, 10, false, false⟩],
    community := [⟨10, false⟩],
    person := [⟨2, false⟩, ⟨3, false⟩, ⟨4, false⟩],
    local_user := [⟨4, false⟩],
    community_actions := [],
    post_actions := [],
    person_actions := [],
    post_aggregates := [⟨20, 5⟩] }

def jessicaView : LocalUserView := ⟨⟨3, false⟩, ⟨3, false⟩⟩

def c5View : PostReportView := (readReport c5Db 30 3).toOption.getD dummyView

theorem c5_absent_edges_default_witness :
    readReport c5Db 30 3 = .ok c5View ∧
    viewAbsentDefaults c5Db 3 c5View ∧
    (c5View.creator_banned_from_community = false ∧ c5View.creator_is_moderator = false ∧
     c5View.creator_is_admin = false ∧ c5View.saved = false ∧ c5View.read = false ∧
     c5View.hidden = false ∧ c5View.creator_blocked = false ∧ c5View.my_vote = none ∧
     c5View.resolver = none) :=
  ⟨rfl, (c5_absent_edges_default c5Db {} jessicaView [] c5View 30).2 rfl, by decide⟩

/-- Timmy's dataset where he has read 3 of the 10 comments of post 21 and
none of the 7 comments of post 20. -/
def c6Db : Db :=
  { post_report := [⟨30, 2, 20, "a", false, none, 1000⟩, ⟨31, 3, 21, "b", false, none, 2000⟩],
    post := [⟨20, 1, 10, false, false⟩, ⟨21, 1, 10, false, false⟩],
    community := [⟨10, false⟩],
    person := [⟨1, false⟩, ⟨2, false⟩, ⟨3, false⟩],
    local_user := [⟨1, false⟩],
    community_actions := [modCa],
    post_actions := [⟨1, 21, none, none, none, none, some 3⟩],
    person_actions := [],
    post_aggregates := [⟨20, 7⟩, ⟨21, 10⟩] }

def c6Views : List PostReportView :=
  (({} : PostReportQuery).list c6Db timmyView).toOption.getD []

def c6ViewJess : PostReportView := c6Views.getD 0 dummyView

def c6ViewSara : PostReportView := c6Views.getD 1 dummyView

theorem c6_unread_comments_witness :
    c6ViewJess.unread_comments = c6ViewJess.counts.comments - 3 ∧
    c6ViewSara.unread_comments = c6ViewSara.counts.comments ∧
    c6ViewJess.counts.comments = 10 ∧ c6ViewJess.unread_comments = 7 ∧
    c6ViewSara.unread_comments = 7 :=
  ⟨(c6_unread_comments c6Db {} timmyView c6Views c6ViewJess rfl (by decide)).2
      ⟨1, 21, none, none, none, none, some 3⟩ (by decide) 3 (by decide) rfl (by decide) rfl,
   (c6_unread_comments c6Db {} timmyView c6Views c6ViewSara rfl (by decide)).1 (by decide),
   by decide, by decide, by decide⟩

/-- Sample data with a second moderator, bob (4), of community 10. -/
def c7Db : Db :=
  { sampleDb with community_actions := [modCa, ⟨4, 10, none, false, some 200, none⟩] }

def bobView : LocalUserView := ⟨⟨4, false⟩, ⟨4, false⟩⟩

def c7ViewsTimmy : List PostReportView :=
  (({} : PostReportQuery).list c7Db timmyView).toOption.getD []

def c7ViewsBob : List PostReportView :=
  (({} : PostReportQuery).list c7Db bobView).toOption.getD []

def c7vTimmy : PostReportView := c7ViewsTimmy.getD 0 dummyView

def c7vBob : PostReportView := c7ViewsBob.getD 0 dummyView

theorem c7_author_standing_witness :
    c7vTimmy.creator_is_moderator = true ∧
    (c7vTimmy.creator_banned_from_community = c7vBob.creator_banned_from_community ∧
     c7vTimmy.creator_is_moderator = c7vBob.creator_is_moderator) :=
  ⟨by decide,
   c7_author_standing_viewer_independent c7Db {} {} timmyView bobView
     c7ViewsTimmy c7ViewsBob c7vTimmy c7vBob (by decide) (by decide) (by decide)
     rfl rfl (by decide) (by decide) (by decide)⟩

/-- A report whose community row is flagged removed and whose author row is
flagged deleted, with every join partner present. -/
def c8okDb : Db :=
  { post_report := [⟨30, 2, 20, "about removed stuff", false, none, 5⟩],
    post := [⟨20, 1, 10, false, false⟩],
    community := [⟨10, true⟩],
    person := [⟨1, true⟩, ⟨2, false⟩],
    local_user := [],
    community_actions := [],
    post_actions := [],
    person_actions := [],
    post_aggregates := [⟨20, 0⟩] }

theorem c8_removal_flags_tolerated_witness :
    ∃ v, readReport c8okDb 30 9 = .ok v ∧ v.post_report.id = 30 ∧
      v.post.id = v.post_report.post_id :=
  c8_removal_flags_tolerated c8okDb 30 9 ⟨30, 2, 20, "about removed stuff", false, none, 5⟩
    ⟨20, 1, 10, false, false⟩ ⟨10, true⟩ ⟨2, false⟩ ⟨1, true⟩ ⟨20, 0⟩
    (by decide) rfl (by decide) rfl (by decide) rfl rfl (by decide) rfl (by decide) rfl rfl
    (by decide) rfl

theorem c9_resolve_all_idempotent_witness :
    (∀ r ∈ (resolve_all_for_object sampleDb 21 1).1.post_report,
      r.post_id = 21 → r.resolved = true) ∧
    (∀ r ∈ sampleDb.post_report, r.post_id = 21 → r.resolved = false →
      { r with resolved := true, resolver_id := some 1 } ∈
        (resolve_all_for_object sampleDb 21 1).1.post_report) ∧
    (∀ r ∈ sampleDb.post_report, (r.post_id ≠ 21 ∨ r.resolved = true) →
      r ∈ (resolve_all_for_object sampleDb 21 1).1.post_report) ∧
    resolve_all_for_object (resolve_all_for_object sampleDb 21 1).1 21 1 =
      ((resolve_all_for_object sampleDb 21 1).1, 0) :=
  c9_resolve_all_idempotent sampleDb 21 1

theorem c10_filter_before_pagination_witness :
    (sortByLe (listCmp {}) ((allJoinsRows sampleDb.post_report sampleDb 1).filter
      (listPred {} timmyView))).length ≤ (0 : Int).toNat + sampleViews.length :=
  (c10_filter_before_pagination {} sampleDb timmyView sampleViews rfl rfl rfl).2.2 (by decide)
